import Mathlib

/-!
# SimdMask: packed per-lane predicates and the quadratic solver built on them

A shallow embedding of `SimdMask/SimdMask.hpp`, `SimdMask/SimdMaskTraits.hpp`,
`miscUtils.h` and `SimdMaskDemo.cpp`.

* The mask word `tMask` is an unsigned integer of `bits` bits, kept as a `Nat`;
  every shift that C++ performs in `tMask` is reduced modulo `2 ^ bits`. The class is
  written for `uint32_t` (the default) and `uint64_t`, so `bits` stands for 32 or 64: these
  are the types whose arithmetic C++ performs without promoting the operands to `int`.
* A C++ `int` is an `Int`; the two conversions `(tMask)x` and `(int)x` are `toMask`
  and `toInt`.
* A register of comparison results is a function from the lane index to the bit
  pattern of the lane (lane 0 first).
* The enum key `v` of the templates enters through its integer value `(int)v`.
* The coefficients of the solver are exact rational numbers; the sign-bit operations at the
  start of `solveQuadratic` are modelled a second time on stored floats (`StoredFloat`), which
  tell `-0.0` from `+0.0`.
-/

/-! ## Machine integers -/

/-- The conversion `(tMask)x` of a C++ `int` to an unsigned word of `bits` bits. -/
def toMask (bits : Nat) (x : Int) : Nat :=
  (x % (2 : Int) ^ bits).toNat

/-- The conversion `(int)x` of an unsigned word to a 32-bit signed `int`. -/
def toInt (x : Nat) : Int :=
  if x % 2 ^ 32 < 2 ^ 31 then ((x % 2 ^ 32 : Nat) : Int) else ((x % 2 ^ 32 : Nat) : Int) - 2 ^ 32

/-! ## SimdMaskTraits.hpp -/

/-- The members every specialisation of `SimdMaskTraits<tReg>` provides: the lane count
`nLanes` and `fromVector`, which packs one bit per lane into an `int`. -/
structure SimdMaskTraits (tReg : Type) where
  /-- Count of lanes per register. -/
  nLanes : Nat
  /-- One bit per lane, lane `k` in bit `k`. -/
  fromVector : tReg → Int

/-- Bits `0 .. n-1` of the `movemask` instructions (`_mm_movemask_ps`, `_mm_movemask_pd`,
`_mm256_movemask_ps`, `_mm256_movemask_pd`): bit `k` is the most significant bit of lane `k`,
a lane being `elemBits` bits wide. -/
def movemaskUpTo (elemBits : Nat) {L : Nat} (v : Fin L → Nat) : Nat → Nat
  | 0 => 0
  | n + 1 =>
    movemaskUpTo elemBits v n |||
      (if h : n < L then ((v ⟨n, h⟩ >>> (elemBits - 1)) &&& 1) <<< n else 0)

/-- The `movemask` instruction on a register of `L` lanes of `elemBits` bits each. -/
def movemask (elemBits : Nat) {L : Nat} (v : Fin L → Nat) : Int :=
  ((movemaskUpTo elemBits v L : Nat) : Int)

/-- The shape shared by the four specialisations of `SimdMaskTraits`: `L` lanes of
`elemBits` bits, `fromVector` being the `movemask` of that register type. -/
def laneTraits (elemBits L : Nat) : SimdMaskTraits (Fin L → Nat) :=
  { nLanes := L, fromVector := movemask elemBits }

/-- `SimdMaskTraits<__m128>`: SSE1, single precision floats. -/
def SimdMaskTraits.m128 : SimdMaskTraits (Fin 4 → Nat) := laneTraits 32 4

/-- `SimdMaskTraits<__m128d>`: SSE2, double precision floats. -/
def SimdMaskTraits.m128d : SimdMaskTraits (Fin 2 → Nat) := laneTraits 64 2

/-- `SimdMaskTraits<__m256>`: AVX1, single precision floats. -/
def SimdMaskTraits.m256 : SimdMaskTraits (Fin 8 → Nat) := laneTraits 32 8

/-- `SimdMaskTraits<__m256d>`: AVX1, double precision floats. -/
def SimdMaskTraits.m256d : SimdMaskTraits (Fin 4 → Nat) := laneTraits 64 4

/-- The all-ones pattern of a lane of `elemBits` bits, the "true" of a vector comparison. -/
def allOnes (elemBits : Nat) : Nat := 2 ^ elemBits - 1

/-! ## SimdMask.hpp -/

/-- The class `SimdMask<eKey, tMask, tReg, tTraits>`: its only member is the word `m_mask`.
The template parameters `tMask` (through its width `bits`) and `tTraits` are arguments of
the operations. -/
structure SimdMask where
  /-- The packed results of the vector tests. -/
  m_mask : Nat
deriving DecidableEq

namespace SimdMask

variable {tReg : Type}

/-- The constant `allSetMask = ( ~( (tMask)0 ) ) >> ( sizeof( tMask ) * 8 - nLanes )`.
For `uint32_t` and `uint64_t` the complement `~( (tMask)0 )` is computed in `tMask` itself and
is the word of `bits` ones. -/
def allSetMask (bits : Nat) (T : SimdMaskTraits tReg) : Nat :=
  (2 ^ bits - 1) >>> (bits - T.nLanes)

/-- The value `shiftBits<v>()`, which is `i * nLanes` for `i = (int)v`. -/
def shiftBits (T : SimdMaskTraits tReg) (v : Nat) : Nat :=
  v * T.nLanes

/-- The condition of the `static_assert` in `shiftBits<v>()`:
`( i + 1 ) * nLanes <= sizeof( tMask ) * 8`. A key that violates it does not compile. -/
def keyFits (bits : Nat) (T : SimdMaskTraits tReg) (v : Nat) : Prop :=
  (v + 1) * T.nLanes ≤ bits

instance (bits : Nat) (T : SimdMaskTraits tReg) (v : Nat) : Decidable (keyFits bits T v) :=
  inferInstanceAs (Decidable ((v + 1) * T.nLanes ≤ bits))

/-- The method `combine_or<v>( int mask )`:
`m_mask |= ( (tMask)( mask ) << shiftBits<v>() )`. -/
def combine_or (bits : Nat) (T : SimdMaskTraits tReg) (v : Nat) (mask : Int)
    (m : SimdMask) : SimdMask :=
  { m_mask := m.m_mask ||| ((toMask bits mask <<< shiftBits T v) % 2 ^ bits) }

/-- The value `valueMask<v>()`, which is `( (tMask)allSetMask ) << shiftBits<v>()`. -/
def valueMask (bits : Nat) (T : SimdMaskTraits tReg) (v : Nat) : Nat :=
  (allSetMask bits T <<< shiftBits T v) % 2 ^ bits

/-- The default constructor `SimdMask()`: all bits 0. -/
def new : SimdMask := { m_mask := 0 }

/-- The method `clearEverything()`. -/
def clearEverything (_m : SimdMask) : SimdMask := { m_mask := 0 }

/-- The method `clear<v>()`: `bits = allSetMask << shiftBits<v>()`, then
`m_mask &= ( ~bits )`; the complement of a `tMask` flips each of its `bits` bits. -/
def clear (bits : Nat) (T : SimdMaskTraits tReg) (v : Nat) (m : SimdMask) : SimdMask :=
  { m_mask := m.m_mask &&&
      ((2 ^ bits - 1) ^^^ ((allSetMask bits T <<< shiftBits T v) % 2 ^ bits)) }

/-- The method `setVector<v>( tReg r )`: `combine_or<v>( tTraits::fromVector( r ) )`. -/
def setVector (bits : Nat) (T : SimdMaskTraits tReg) (v : Nat) (r : tReg)
    (m : SimdMask) : SimdMask :=
  combine_or bits T v (T.fromVector r) m

/-- The method `setAll<v>()`: `combine_or<v>( (int)allSetMask )`. -/
def setAll (bits : Nat) (T : SimdMaskTraits tReg) (v : Nat) (m : SimdMask) : SimdMask :=
  combine_or bits T v (toInt (allSetMask bits T)) m

/-- The method `False<v>()`: `0 == ( m_mask & valueMask<v>() )`. -/
def False (bits : Nat) (T : SimdMaskTraits tReg) (v : Nat) (m : SimdMask) : Bool :=
  decide (0 = m.m_mask &&& valueMask bits T v)

/-- The method `True<v>()`: `m == ( m_mask & m )` for `m = valueMask<v>()`. -/
def True (bits : Nat) (T : SimdMaskTraits tReg) (v : Nat) (m : SimdMask) : Bool :=
  decide (valueMask bits T v = m.m_mask &&& valueMask bits T v)

/-- The method `condition<v>( int lane )`: with `m = ( (tMask)1 ) << ( shiftBits<v>() + lane )`
it returns `0 != ( m_mask & m )`. The `assert( lane >= 0 && lane < nLanes )` of the source is
the precondition `lane < nLanes` under which the method is used and specified. -/
def condition (bits : Nat) (T : SimdMaskTraits tReg) (v : Nat) (lane : Nat)
    (m : SimdMask) : Bool :=
  decide (0 ≠ m.m_mask &&& ((1 <<< (shiftBits T v + lane)) % 2 ^ bits))

end SimdMask

/-! ## Vector intrinsics over exact numbers

The wrappers of `Intrinsics::Sse` used by the demo are not part of the sources; each one
stands for the SSE instruction of the same name. A float lane holding a finite value is the
rational number it denotes, so the coefficient vectors are `Fin 4 → ℚ`. -/

/-- The value of a float lane in exact arithmetic: `some x` is the number `x`; `none` is a
lane for which exact arithmetic defines no number (a division by zero, the square root of a
negative number, an operation on such a lane, or a lane that was never written). -/
abbrev Lane := Option ℚ

/-- Lane subtraction. -/
def Lane.sub (x y : Lane) : Lane :=
  x.bind fun p => y.bind fun q => some (p - q)

/-- Lane addition. -/
def Lane.add (x y : Lane) : Lane :=
  x.bind fun p => y.bind fun q => some (p + q)

/-- Lane multiplication. -/
def Lane.mul (x y : Lane) : Lane :=
  x.bind fun p => y.bind fun q => some (p * q)

/-- Lane division; dividing by zero defines no number. -/
def Lane.div (x y : Lane) : Lane :=
  x.bind fun p => y.bind fun q => if q = 0 then none else some (p / q)

/-- The natural number whose square is `n`, when there is one. -/
def natSqrt? (n : Nat) : Option Nat :=
  (List.range (n + 1)).find? (fun s => s * s = n)

/-- An exact square root on the rationals: the root of a non-negative rational whose root is
rational, and no number otherwise. One admissible value of the `sqrtf` argument below. -/
def sqrtExact (d : ℚ) : Lane :=
  if d < 0 then none
  else
    match natSqrt? d.num.toNat, natSqrt? d.den with
    | some p, some q => some ((p : ℚ) / (q : ℚ))
    | _, _ => none

/-- Modelled from the spec: the wrapper `set_epi32` of `Intrinsics::Sse` is not in the
sources; it has the argument order of the `_mm_set_epi32( e3, e2, e1, e0 )` intrinsic it
wraps, whose last argument `e0` is lane 0 and whose first argument `e3` is lane 3. -/
def set_epi32 (e3 e2 e1 e0 : Int) : Fin 4 → Int :=
  fun k => match k.val with
    | 0 => e0
    | 1 => e1
    | 2 => e2
    | _ => e3

/-- The wrapper `set1_epi32`: the same integer in every lane. -/
def set1_epi32 (c : Int) : Fin 4 → Int := fun _ => c

/-- The wrapper `setzero_all`: the integer register with every lane 0. -/
def setzero_all : Fin 4 → Int := fun _ => 0

/-- The wrapper `setzero_ps`. -/
def setzero_ps : Fin 4 → ℚ := fun _ => 0

/-- The comparison `cmpneq_ps`: all ones in the lanes where `a != b`, zero elsewhere. -/
def cmpneq_ps (a b : Fin 4 → ℚ) : Fin 4 → Nat :=
  fun k => if a k ≠ b k then allOnes 32 else 0

/-- The comparison `cmpgt_ps`: all ones in the lanes where `a > b`. -/
def cmpgt_ps (a b : Fin 4 → ℚ) : Fin 4 → Nat :=
  fun k => if a k > b k then allOnes 32 else 0

/-- The comparison `cmple_ps`: all ones in the lanes where `a <= b`. -/
def cmple_ps (a b : Fin 4 → ℚ) : Fin 4 → Nat :=
  fun k => if a k ≤ b k then allOnes 32 else 0

/-- The comparison `cmpeq_ps`: all ones in the lanes where `a == b`. -/
def cmpeq_ps (a b : Fin 4 → ℚ) : Fin 4 → Nat :=
  fun k => if a k = b k then allOnes 32 else 0

/-- The value `a & signBits` for `signBits = set1_ps( -0.0f )`: the sign bit of each lane,
which for an exact number is set exactly when the number is negative. A rational has no
negative zero: the float `-0.0`, whose sign bit is set although it is not negative, is covered
by `StoredFloat` and `solveQuadratic_signbit` below, which return what `solveQuadratic`
returns on the values. -/
def signOf (a : Fin 4 → ℚ) : Fin 4 → Bool :=
  fun k => decide (a k < 0)

/-- The value `x ^ s` for a register `s` of sign bits: the lanes of `x` negated where the
sign bit of `s` is set. -/
def xorSign (x : Fin 4 → ℚ) (s : Fin 4 → Bool) : Fin 4 → ℚ :=
  fun k => if s k then - x k else x k

/-- The wrapper `and_ps` of a float register with a comparison mask: a lane is kept under an
all-ones mask and becomes `+0.0` under a zero mask; any other mask leaves no defined number. -/
def and_ps (x : Fin 4 → Lane) (mask : Fin 4 → Nat) : Fin 4 → Lane :=
  fun k => if mask k = allOnes 32 then x k else if mask k = 0 then some 0 else none

/-- The wrapper `andnot_ps( mask, x )`, which is `( ~mask ) & x`. -/
def andnot_ps (mask : Fin 4 → Nat) (x : Fin 4 → Lane) : Fin 4 → Lane :=
  fun k => if mask k = 0 then x k else if mask k = allOnes 32 then some 0 else none

/-- The wrapper `or_ps` of two float registers: a lane that is `+0.0` on one side takes the
other side; the bitwise or of two other lanes is no defined number. -/
def or_ps (x y : Fin 4 → Lane) : Fin 4 → Lane :=
  fun k => if x k = some 0 then y k else if y k = some 0 then x k else none

/-! ## miscUtils.h -/

/-- The function `blendv_ps( a, b, maskPickB )`. -/
def blendv_ps (a b : Fin 4 → Lane) (maskPickB : Fin 4 → Nat) : Fin 4 → Lane :=
  let b := and_ps b maskPickB
  let a := andnot_ps maskPickB a
  or_ps a b

/-! ## SimdMaskDemo.cpp -/

/-- The enum `eTest`: the vector tests needed for solving the equations. -/
inductive eTest where
  /-- The test `a != 0.0`, i.e. the equation is actually quadratic. -/
  | Quadratic
  /-- The discriminant is positive. -/
  | DiscrPositive
  /-- The discriminant is negative. -/
  | DiscrNegative
  /-- The test `b = 0.0`. -/
  | ZeroB
deriving DecidableEq

/-- The integer value `(int)v` of a key. -/
def eTest.toNat : eTest → Nat
  | .Quadratic => 0
  | .DiscrPositive => 1
  | .DiscrNegative => 2
  | .ZeroB => 3

/-- The class `Mask : public SimdMask<eTest>`, with the default template arguments: a 32-bit
mask word and the traits of `__m128`. -/
abbrev Mask := SimdMask

namespace Mask

/-- The inherited `setVector<v>`. -/
def setVector (v : eTest) (r : Fin 4 → Nat) (m : Mask) : Mask :=
  SimdMask.setVector 32 SimdMaskTraits.m128 v.toNat r m

/-- The inherited `True<v>`. -/
def True (v : eTest) (m : Mask) : Bool :=
  SimdMask.True 32 SimdMaskTraits.m128 v.toNat m

/-- The inherited `False<v>`. -/
def False (v : eTest) (m : Mask) : Bool :=
  SimdMask.False 32 SimdMaskTraits.m128 v.toNat m

/-- The inherited `condition<v>( lane )`. -/
def condition (v : eTest) (lane : Nat) (m : Mask) : Bool :=
  SimdMask.condition 32 SimdMaskTraits.m128 v.toNat lane m

/-- The method `countRoots( fn )`:
`set_epi32( fn( 0 ), fn( 1 ), fn( 2 ), fn( 3 ) )`. -/
def countRoots (fn : Nat → Int) : Fin 4 → Int :=
  set_epi32 (fn 0) (fn 1) (fn 2) (fn 3)

/-- The method `quadraticRoots( lane )`. -/
def quadraticRoots (m : Mask) (lane : Nat) : Int :=
  if condition .DiscrNegative lane m then 0
  else if condition .DiscrPositive lane m then 2
  else 1

/-- The method `linearRoots( lane )`. -/
def linearRoots (m : Mask) (lane : Nat) : Int :=
  if !condition .ZeroB lane m then 1
  else 0

/-- The method `generalRoots( lane )`. -/
def generalRoots (m : Mask) (lane : Nat) : Int :=
  if condition .Quadratic lane m then quadraticRoots m lane
  else linearRoots m lane

/-- The method `countQuadraticRoots()`. -/
def countQuadraticRoots (m : Mask) : Fin 4 → Int := countRoots (quadraticRoots m)

/-- The method `countLinearRoots()`. -/
def countLinearRoots (m : Mask) : Fin 4 → Int := countRoots (linearRoots m)

/-- The method `countAllRoots()`. -/
def countAllRoots (m : Mask) : Fin 4 → Int := countRoots (generalRoots m)

end Mask

/-- The struct `Solution`: the count of roots per lane and the two root registers. -/
structure Solution where
  /-- Count of roots in 32-bit integer lanes. -/
  rootsCount : Fin 4 → Int
  /-- The first root. -/
  r1 : Fin 4 → Lane
  /-- The second root. -/
  r2 : Fin 4 → Lane

namespace Solution

/-- The declaration `Solution result;`: no member has been written. Every path of
`solveQuadratic` writes `rootsCount` before it returns. -/
def uninit : Solution :=
  { rootsCount := fun _ => 0, r1 := fun _ => none, r2 := fun _ => none }

/-- The method `quadraticFormula( a, b, discr )`: `( b ± sqrt( discr ) ) / ( 2 * a )`, computed
as `( b ∓ discrSqrt ) * mul` with `mul = 0.5 / a`. -/
def quadraticFormula (sqrtf : ℚ → Lane) (a b discr : Fin 4 → ℚ) (s : Solution) : Solution :=
  let discrSqrt : Fin 4 → Lane := fun k => sqrtf (discr k)
  let mul : Fin 4 → Lane := fun k => Lane.div (some (1 / 2)) (some (a k))
  { s with
    r1 := fun k => Lane.mul (Lane.sub (some (b k)) (discrSqrt k)) (mul k)
    r2 := fun k => Lane.mul (Lane.add (some (b k)) (discrSqrt k)) (mul k) }

/-- The method `sameRootsCount( c )`, called with `c` between 0 and 2. -/
def sameRootsCount (c : Int) (s : Solution) : Solution :=
  { s with rootsCount := set1_epi32 c }

end Solution

/-- The function `solveQuadratic( a, b, c )`. The square root of a lane, `sqrt_ps`, is the
argument `sqrtf`. -/
def solveQuadratic (sqrtf : ℚ → Lane) (a b c : Fin 4 → ℚ) : Solution :=
  -- Flip signs so that a >= 0
  let aSign := signOf a
  let a := xorSign a aSign
  let b := xorSign b aSign
  let c := xorSign c aSign
  -- b = -b
  let b : Fin 4 → ℚ := fun k => - b k
  let mask : Mask := SimdMask.new
  let zero := setzero_ps
  let result := Solution.uninit
  -- First couple of tests
  let quadraticMask := cmpneq_ps a zero
  let mask := mask.setVector .Quadratic quadraticMask
  let discr : Fin 4 → ℚ := fun k => b k * b k + (-4) * a k * c k
  let mask := mask.setVector .DiscrPositive (cmpgt_ps discr zero)
  if mask.True .Quadratic && mask.True .DiscrPositive then
    (result.quadraticFormula sqrtf a b discr).sameRootsCount 2
  else
    let mask := mask.setVector .DiscrNegative (cmple_ps discr zero)
    if mask.True .Quadratic then
      if mask.True .DiscrNegative then
        { result with rootsCount := setzero_all }
      else
        let result := result.quadraticFormula sqrtf a b discr
        { result with rootsCount := mask.countQuadraticRoots }
    else
      let mask := mask.setVector .ZeroB (cmpeq_ps b zero)
      if mask.False .Quadratic then
        let result := { result with r1 := fun k => Lane.div (some (c k)) (some (b k)) }
        if mask.False .ZeroB then
          result.sameRootsCount 1
        else
          { result with rootsCount := mask.countLinearRoots }
      else
        let result := result.quadraticFormula sqrtf a b discr
        let result :=
          { result with
            r1 := blendv_ps (fun k => Lane.div (some (c k)) (some (b k))) result.r1
              quadraticMask }
        { result with rootsCount := mask.countAllRoots }

/-- The function `solveQuadratic_scalar( a, b, c, r1, r2 )`: the returned count, then the
values left in `r1` and `r2` (`none` for a reference the function did not write). -/
def solveQuadratic_scalar (sqrtf : ℚ → Lane) (a b c : ℚ) : Int × Lane × Lane :=
  let abc : ℚ × ℚ × ℚ := if a < 0 then (-a, b, -c) else (a, -b, c)
  let a := abc.1
  let b := abc.2.1
  let c := abc.2.2
  if a ≠ 0 then
    -- Quadratic
    let d := b * b - 4 * a * c
    if d < 0 then (0, none, none)
    else
      let mul := Lane.div (some (1 / 2)) (some a)
      if d > 0 then
        let sq := sqrtf d
        (2, Lane.mul (Lane.sub (some b) sq) mul, Lane.mul (Lane.add (some b) sq) mul)
      else
        (1, Lane.mul (some b) mul, none)
  else
    -- Linear
    if 0 ≠ b then (1, Lane.div (some c) (some b), none)
    else (0, none, none)

/-- A register from its four lanes, lane 0 first (as `m128_f32[ 0 .. 3 ]`). -/
def lanes {α : Type} (x0 x1 x2 x3 : α) : Fin 4 → α :=
  fun k => match k.val with
    | 0 => x0
    | 1 => x1
    | 2 => x2
    | _ => x3

/-! ### The stages of `solveQuadratic`

The working coefficients and the successive values of the local `mask`, named so that
the lemmas below can refer to them. -/

/-- The coefficient `a` after the sign flip `a ^= aSign`. -/
def canonA (a : Fin 4 → ℚ) : Fin 4 → ℚ := xorSign a (signOf a)

/-- The coefficient `b` after `b ^= aSign` and `b ^= signBits`. -/
def canonB (a b : Fin 4 → ℚ) : Fin 4 → ℚ := fun k => - xorSign b (signOf a) k

/-- The coefficient `c` after `c ^= aSign`. -/
def canonC (a c : Fin 4 → ℚ) : Fin 4 → ℚ := xorSign c (signOf a)

/-- The local `discr = b * b + set1_ps( -4.0f ) * a * c` of the working coefficients. -/
def discrOf (a b c : Fin 4 → ℚ) : Fin 4 → ℚ :=
  fun k => canonB a b k * canonB a b k + (-4) * canonA a k * canonC a c k

/-- The mask after the tests `Quadratic` and `DiscrPositive`. -/
def maskQP (a b c : Fin 4 → ℚ) : Mask :=
  (Mask.setVector .Quadratic (cmpneq_ps (canonA a) setzero_ps) SimdMask.new).setVector
    .DiscrPositive (cmpgt_ps (discrOf a b c) setzero_ps)

/-- The mask after the further test `DiscrNegative`. -/
def maskQPN (a b c : Fin 4 → ℚ) : Mask :=
  (maskQP a b c).setVector .DiscrNegative (cmple_ps (discrOf a b c) setzero_ps)

/-- The mask after the further test `ZeroB`. -/
def maskAll (a b c : Fin 4 → ℚ) : Mask :=
  (maskQPN a b c).setVector .ZeroB (cmpeq_ps (canonB a b) setzero_ps)

/-- The classifier of `quadraticRoots` as a function of the discriminant of the lane:
the `DiscrNegative` test is `discr <= 0`, the `DiscrPositive` test is `discr > 0`. -/
def quadraticCount (d : ℚ) : Int :=
  if d ≤ 0 then 0 else if 0 < d then 2 else 1

/-- The classifier of `linearRoots` as a function of the coefficient `b` of the lane. -/
def linearCount (b : ℚ) : Int :=
  if b ≠ 0 then 1 else 0

/-- The first root of `quadraticFormula` on the working coefficients, lane `k`. -/
def quadR1 (sqrtf : ℚ → Lane) (a b c : Fin 4 → ℚ) (k : Fin 4) : Lane :=
  (Solution.uninit.quadraticFormula sqrtf (canonA a) (canonB a b) (discrOf a b c)).r1 k

/-- The second root of `quadraticFormula` on the working coefficients, lane `k`. -/
def quadR2 (sqrtf : ℚ → Lane) (a b c : Fin 4 → ℚ) (k : Fin 4) : Lane :=
  (Solution.uninit.quadraticFormula sqrtf (canonA a) (canonB a b) (discrOf a b c)).r2 k

/-- The quotient `c / b` of the working coefficients, lane `k`. -/
def linR1 (a b c : Fin 4 → ℚ) (k : Fin 4) : Lane :=
  Lane.div (some (canonC a c k)) (some (canonB a b k))

/-- The general path of `solveQuadratic` on its own: the same canonicalization, the four
tests `Quadratic`, `DiscrPositive`, `DiscrNegative` and `ZeroB` all set in the mask, and then
the last branch of the function (quadratic formula, blended `r1`, `countAllRoots`), with every
aggregate test and early return skipped. -/
def solveQuadratic_general (sqrtf : ℚ → Lane) (a b c : Fin 4 → ℚ) : Solution :=
  let aSign := signOf a
  let a := xorSign a aSign
  let b := xorSign b aSign
  let c := xorSign c aSign
  let b : Fin 4 → ℚ := fun k => - b k
  let mask : Mask := SimdMask.new
  let zero := setzero_ps
  let result := Solution.uninit
  let quadraticMask := cmpneq_ps a zero
  let mask := mask.setVector .Quadratic quadraticMask
  let discr : Fin 4 → ℚ := fun k => b k * b k + (-4) * a k * c k
  let mask := mask.setVector .DiscrPositive (cmpgt_ps discr zero)
  let mask := mask.setVector .DiscrNegative (cmple_ps discr zero)
  let mask := mask.setVector .ZeroB (cmpeq_ps b zero)
  let result := result.quadraticFormula sqrtf a b discr
  let result :=
    { result with
      r1 := blendv_ps (fun k => Lane.div (some (c k)) (some (b k))) result.r1
        quadraticMask }
  { result with rootsCount := mask.countAllRoots }

/-! ### `blendv_ps` on bit patterns

A float register as the bit patterns of its four lanes, each a number below `2 ^ 32`. -/

/-- The instruction `and_ps` on bit patterns. -/
def and_ps_bits (x y : Fin 4 → Nat) : Fin 4 → Nat :=
  fun k => x k &&& y k

/-- The instruction `andnot_ps( x, y )` on bit patterns: `( ~x ) & y`, the complement
flipping each of the 32 bits of the lane. -/
def andnot_ps_bits (x y : Fin 4 → Nat) : Fin 4 → Nat :=
  fun k => (allOnes 32 ^^^ x k) &&& y k

/-- The instruction `or_ps` on bit patterns. -/
def or_ps_bits (x y : Fin 4 → Nat) : Fin 4 → Nat :=
  fun k => x k ||| y k

/-- The function `blendv_ps( a, b, maskPickB )` of `miscUtils.h` on bit patterns. -/
def blendv_ps_bits (a b maskPickB : Fin 4 → Nat) : Fin 4 → Nat :=
  let b := and_ps_bits b maskPickB
  let a := andnot_ps_bits maskPickB a
  or_ps_bits a b

/-! ### The canonicalization on stored floats

The sign flips at the start of `solveQuadratic` work on the sign bit of a lane, and a float
has two zeros. A stored finite float is a rational number or the negative zero. -/

/-- A finite float as stored in a lane: `num x` is the number `x` (`num 0` is `+0.0`, whose
sign bit is clear), `negZero` is `-0.0` (the value 0 with the sign bit set). -/
inductive StoredFloat where
  /-- The float of value `x`; for `x = 0` the positive zero. -/
  | num (x : ℚ)
  /-- The float `-0.0`. -/
  | negZero
deriving DecidableEq

namespace StoredFloat

/-- The number a stored float denotes. -/
def toRat : StoredFloat → ℚ
  | num x => x
  | negZero => 0

/-- The sign bit of a stored float. -/
def signBit : StoredFloat → Bool
  | num x => decide (x < 0)
  | negZero => true

/-- The stored float with its sign bit flipped, `x ^ signBits` for
`signBits = set1_ps( -0.0f )`. -/
def flipSign : StoredFloat → StoredFloat
  | num x => if x = 0 then negZero else num (- x)
  | negZero => num 0

end StoredFloat

/-- The value `a & signBits`: the sign bit of each lane of a stored register. -/
def and_signBits (a : Fin 4 → StoredFloat) : Fin 4 → Bool :=
  fun k => (a k).signBit

/-- The value `x ^ s` for a register `s` that holds sign bits only: the sign bit of a lane of
`x` is flipped where the sign bit of `s` is set. -/
def xor_signBits (x : Fin 4 → StoredFloat) (s : Fin 4 → Bool) : Fin 4 → StoredFloat :=
  fun k => if s k then (x k).flipSign else x k

/-- The first block of `solveQuadratic` (the sign flip under `aSign`, then `b ^= signBits`)
on stored floats: the working coefficients `(a, b, c)`. -/
def canonicalize (a b c : Fin 4 → StoredFloat) :
    (Fin 4 → StoredFloat) × (Fin 4 → StoredFloat) × (Fin 4 → StoredFloat) :=
  -- Flip signs so that a >= 0
  let aSign := and_signBits a
  let a := xor_signBits a aSign
  let b := xor_signBits b aSign
  let c := xor_signBits c aSign
  -- b = -b
  let b : Fin 4 → StoredFloat := fun k => (b k).flipSign
  (a, b, c)

/-- The numbers held by a stored register. -/
def values (x : Fin 4 → StoredFloat) : Fin 4 → ℚ :=
  fun k => (x k).toRat

/-- The rest of `solveQuadratic`, from `Mask mask;` to the end, as a function of the working
coefficients. -/
def solveCanonical (sqrtf : ℚ → Lane) (a b c : Fin 4 → ℚ) : Solution :=
  let mask : Mask := SimdMask.new
  let zero := setzero_ps
  let result := Solution.uninit
  -- First couple of tests
  let quadraticMask := cmpneq_ps a zero
  let mask := mask.setVector .Quadratic quadraticMask
  let discr : Fin 4 → ℚ := fun k => b k * b k + (-4) * a k * c k
  let mask := mask.setVector .DiscrPositive (cmpgt_ps discr zero)
  if mask.True .Quadratic && mask.True .DiscrPositive then
    (result.quadraticFormula sqrtf a b discr).sameRootsCount 2
  else
    let mask := mask.setVector .DiscrNegative (cmple_ps discr zero)
    if mask.True .Quadratic then
      if mask.True .DiscrNegative then
        { result with rootsCount := setzero_all }
      else
        let result := result.quadraticFormula sqrtf a b discr
        { result with rootsCount := mask.countQuadraticRoots }
    else
      let mask := mask.setVector .ZeroB (cmpeq_ps b zero)
      if mask.False .Quadratic then
        let result := { result with r1 := fun k => Lane.div (some (c k)) (some (b k)) }
        if mask.False .ZeroB then
          result.sameRootsCount 1
        else
          { result with rootsCount := mask.countLinearRoots }
      else
        let result := result.quadraticFormula sqrtf a b discr
        let result :=
          { result with
            r1 := blendv_ps (fun k => Lane.div (some (c k)) (some (b k))) result.r1
              quadraticMask }
        { result with rootsCount := mask.countAllRoots }

/-- The function `solveQuadratic( a, b, c )` on stored floats: the canonicalization on the
sign bits, then the rest of the function on the numbers the working coefficients hold. -/
def solveQuadratic_signbit (sqrtf : ℚ → Lane) (a b c : Fin 4 → StoredFloat) : Solution :=
  let w := canonicalize a b c
  solveCanonical sqrtf (values w.1) (values w.2.1) (values w.2.2)

/-! ## Bit-level lemmas -/

theorem toMask_of_nonneg (bits : Nat) (x : Int) (h : 0 ≤ x) :
    toMask bits x = x.toNat % 2 ^ bits := by
  unfold toMask
  obtain ⟨n, rfl⟩ := Int.eq_ofNat_of_zero_le h
  have : ((n : Int) % (2 : Int) ^ bits) = ((n % 2 ^ bits : Nat) : Int) := by
    push_cast
    rfl
  rw [this]
  exact Int.toNat_ofNat _

theorem and_two_pow_ne_zero_iff (m n : Nat) : (0 ≠ m &&& 2 ^ n) ↔ m.testBit n = true := by
  constructor
  · intro h
    obtain ⟨i, hi⟩ := Nat.ne_zero_implies_bit_true (Ne.symm h)
    rw [Nat.testBit_and, Nat.testBit_two_pow] at hi
    simp only [Bool.and_eq_true, decide_eq_true_eq] at hi
    obtain ⟨h1, h2⟩ := hi
    subst h2
    exact h1
  · intro h h0
    have := congrArg (fun x => Nat.testBit x n) h0
    simp [h] at this

namespace SimdMask

variable {tReg : Type}

theorem condition_eq_testBit (bits : Nat) (T : SimdMaskTraits tReg) (v lane : Nat)
    (m : SimdMask) (h : v * T.nLanes + lane < bits) :
    condition bits T v lane m = m.m_mask.testBit (v * T.nLanes + lane) := by
  unfold condition shiftBits
  rw [Nat.one_shiftLeft, Nat.mod_eq_of_lt (Nat.pow_lt_pow_right (by decide) h)]
  rw [Bool.eq_iff_iff, decide_eq_true_eq]
  exact and_two_pow_ne_zero_iff _ _

theorem testBit_allSetMask (bits : Nat) (T : SimdMaskTraits tReg) (hL : T.nLanes ≤ bits)
    (k : Nat) : (allSetMask bits T).testBit k = decide (k < T.nLanes) := by
  unfold allSetMask
  rw [Nat.testBit_shiftRight, Nat.testBit_two_pow_sub_one]
  congr 1
  apply propext
  omega

theorem allSetMask_eq (bits : Nat) (T : SimdMaskTraits tReg) (hL : T.nLanes ≤ bits) :
    allSetMask bits T = 2 ^ T.nLanes - 1 := by
  apply Nat.eq_of_testBit_eq
  intro k
  rw [testBit_allSetMask bits T hL, Nat.testBit_two_pow_sub_one]

theorem keyFits_lanes_le {bits : Nat} {T : SimdMaskTraits tReg} {v : Nat}
    (h : keyFits bits T v) : v * T.nLanes + T.nLanes ≤ bits := by
  unfold keyFits at h
  rw [Nat.add_mul, Nat.one_mul] at h
  exact h

theorem testBit_valueMask (bits : Nat) (T : SimdMaskTraits tReg) (v : Nat)
    (h : keyFits bits T v) (k : Nat) :
    (valueMask bits T v).testBit k
      = decide (v * T.nLanes ≤ k ∧ k < v * T.nLanes + T.nLanes) := by
  have hf := keyFits_lanes_le h
  unfold valueMask shiftBits
  rw [Nat.testBit_mod_two_pow, Nat.testBit_shiftLeft,
    testBit_allSetMask bits T (by omega)]
  rw [Bool.eq_iff_iff]
  simp only [Bool.and_eq_true, decide_eq_true_eq, ge_iff_le]
  omega

end SimdMask

theorem range_disjoint {L i j k : Nat} (hij : i ≠ j) (h1 : j * L ≤ k)
    (h2 : k < j * L + L) (h3 : i * L ≤ k) : L ≤ k - i * L := by
  rcases Nat.lt_or_gt_of_ne hij with h | h
  · have := Nat.mul_le_mul_right L (Nat.succ_le_of_lt h)
    rw [Nat.succ_mul] at this
    omega
  · have := Nat.mul_le_mul_right L (Nat.succ_le_of_lt h)
    rw [Nat.succ_mul] at this
    omega

theorem testBit_movemaskUpTo (elemBits : Nat) {L : Nat} (v : Fin L → Nat) (n k : Nat) :
    (movemaskUpTo elemBits v n).testBit k
      = (decide (k < n) && (if h : k < L then (v ⟨k, h⟩).testBit (elemBits - 1) else false)) := by
  induction n with
  | zero => simp [movemaskUpTo]
  | succ n ih =>
    rw [movemaskUpTo, Nat.testBit_or, ih]
    by_cases hn : n < L
    · rw [dif_pos hn, Nat.testBit_shiftLeft, Nat.testBit_and, Nat.testBit_shiftRight]
      by_cases hk : k = n
      · subst hk
        simp [hn]
      · have h1 : (Nat.testBit 1 (k - n) && decide (k ≥ n)) = false := by
          by_cases hge : k ≥ n
          · have : k - n ≠ 0 := by omega
            have h1 : Nat.testBit 1 (k - n) = false := by
              rw [Bool.eq_false_iff]
              intro h
              exact this (Nat.testBit_one_eq_true_iff_self_eq_zero.mp h)
            simp [h1]
          · simp [hge]
        have h2 : decide (k < n + 1) = decide (k < n) := by
          rw [Bool.eq_iff_iff]
          simp only [decide_eq_true_eq]
          omega
        rw [h2]
        cases hA : decide (k < n) <;> cases hB : Nat.testBit 1 (k - n) <;>
          cases hC : decide (k ≥ n) <;> simp_all
    · rw [dif_neg hn]
      by_cases hk : k < L
      · have h2 : decide (k < n + 1) = decide (k < n) := by
          rw [Bool.eq_iff_iff]
          simp only [decide_eq_true_eq]
          omega
        simp [h2]
      · simp [hk]

theorem movemask_nonneg (elemBits : Nat) {L : Nat} (v : Fin L → Nat) :
    0 ≤ movemask elemBits v := by
  unfold movemask
  exact Int.ofNat_nonneg _

theorem movemask_lt (elemBits : Nat) {L : Nat} (v : Fin L → Nat) :
    movemask elemBits v < 2 ^ L := by
  unfold movemask
  have : movemaskUpTo elemBits v L < 2 ^ L := by
    apply Nat.lt_pow_two_of_testBit
    intro i hi
    rw [testBit_movemaskUpTo]
    have : ¬ i < L := by omega
    simp [this]
  exact_mod_cast this

namespace SimdMask

variable {tReg : Type}

theorem testBit_combine_or (bits : Nat) (T : SimdMaskTraits tReg) (v : Nat) (mask : Int)
    (m : SimdMask) (k : Nat) :
    (combine_or bits T v mask m).m_mask.testBit k
      = (m.m_mask.testBit k ||
          (decide (k < bits) &&
            (decide (k ≥ v * T.nLanes) && (toMask bits mask).testBit (k - v * T.nLanes)))) := by
  unfold combine_or shiftBits
  simp only [Nat.testBit_or, Nat.testBit_mod_two_pow, Nat.testBit_shiftLeft]

theorem testBit_clear (bits : Nat) (T : SimdMaskTraits tReg) (v : Nat) (m : SimdMask)
    (h : keyFits bits T v) (k : Nat) :
    (clear bits T v m).m_mask.testBit k
      = (m.m_mask.testBit k &&
          !decide (v * T.nLanes ≤ k ∧ k < v * T.nLanes + T.nLanes) && decide (k < bits)) := by
  have hv := testBit_valueMask bits T v h k
  unfold valueMask at hv
  unfold clear
  have hf := keyFits_lanes_le h
  rw [Nat.testBit_and, Nat.testBit_xor, Nat.testBit_two_pow_sub_one, hv]
  by_cases hr : v * T.nLanes ≤ k ∧ k < v * T.nLanes + T.nLanes
  · have hk : k < bits := by omega
    simp [hr, hk]
  · by_cases hk : k < bits <;> simp [hr, hk]

end SimdMask

theorem testBit_allOnes_top (elemBits : Nat) (he : 0 < elemBits) :
    (allOnes elemBits).testBit (elemBits - 1) = true := by
  unfold allOnes
  rw [Nat.testBit_two_pow_sub_one, decide_eq_true_eq]
  omega

theorem allOnes_ne_zero (elemBits : Nat) (he : 0 < elemBits) : allOnes elemBits ≠ 0 := by
  intro h
  have := testBit_allOnes_top elemBits he
  rw [h, Nat.zero_testBit] at this
  exact Bool.false_ne_true this

theorem testBit_fromVector_laneTraits (elemBits L bits : Nat) (r : Fin L → Nat) (lane : Nat)
    (hl : lane < L) (hL : L ≤ bits) :
    (toMask bits ((laneTraits elemBits L).fromVector r)).testBit lane
      = (r ⟨lane, hl⟩).testBit (elemBits - 1) := by
  have hlt : movemaskUpTo elemBits r L < 2 ^ bits := by
    have := movemask_lt elemBits r
    unfold movemask at this
    have h2 : movemaskUpTo elemBits r L < 2 ^ L := by exact_mod_cast this
    exact Nat.lt_of_lt_of_le h2 (Nat.pow_le_pow_right (by decide) hL)
  show (toMask bits (movemask elemBits r)).testBit lane = _
  rw [toMask_of_nonneg bits _ (movemask_nonneg elemBits r)]
  unfold movemask
  rw [Int.toNat_ofNat, Nat.mod_eq_of_lt hlt, testBit_movemaskUpTo]
  simp [hl]

namespace SimdMask

variable {tReg : Type}

theorem testBit_setVector_other (bits : Nat) (T : SimdMaskTraits tReg) (i j : Nat)
    (m : SimdMask) (r : tReg) (hij : i ≠ j)
    (h0 : 0 ≤ T.fromVector r) (h1 : T.fromVector r < 2 ^ T.nLanes) (k : Nat)
    (hk1 : j * T.nLanes ≤ k) (hk2 : k < j * T.nLanes + T.nLanes) :
    (setVector bits T i r m).m_mask.testBit k = m.m_mask.testBit k := by
  unfold setVector
  rw [testBit_combine_or]
  by_cases hge : k ≥ i * T.nLanes
  · have hL : T.nLanes ≤ k - i * T.nLanes := range_disjoint hij hk1 hk2 hge
    have hx : toMask bits (T.fromVector r) < 2 ^ (k - i * T.nLanes) := by
      rw [toMask_of_nonneg bits _ h0]
      have h2 : (T.fromVector r).toNat < 2 ^ T.nLanes :=
        (Int.toNat_lt h0).mpr (by exact_mod_cast h1)
      calc (T.fromVector r).toNat % 2 ^ bits ≤ (T.fromVector r).toNat := Nat.mod_le _ _
        _ < 2 ^ T.nLanes := h2
        _ ≤ 2 ^ (k - i * T.nLanes) := Nat.pow_le_pow_right (by decide) hL
    rw [Nat.testBit_lt_two_pow hx]
    simp
  · simp [hge]

theorem condition_setVector_other (bits : Nat) (T : SimdMaskTraits tReg) (i j : Nat)
    (m : SimdMask) (r : tReg) (hij : i ≠ j) (hj : keyFits bits T j)
    (h0 : 0 ≤ T.fromVector r) (h1 : T.fromVector r < 2 ^ T.nLanes) (lane : Nat)
    (hlane : lane < T.nLanes) :
    condition bits T j lane (setVector bits T i r m) = condition bits T j lane m := by
  have hj2 := keyFits_lanes_le hj
  rw [condition_eq_testBit bits T j lane _ (by omega),
    condition_eq_testBit bits T j lane _ (by omega)]
  exact testBit_setVector_other bits T i j m r hij h0 h1 _ (by omega) (by omega)

theorem True_iff_forall_condition (bits : Nat) (T : SimdMaskTraits tReg) (i : Nat)
    (m : SimdMask) (hi : keyFits bits T i) :
    True bits T i m = true ↔
      ∀ lane, lane < T.nLanes → condition bits T i lane m = true := by
  have hi2 := keyFits_lanes_le hi
  unfold True
  rw [decide_eq_true_eq]
  constructor
  · intro h lane hlane
    rw [condition_eq_testBit bits T i lane _ (by omega)]
    have h2 := congrArg (fun x => Nat.testBit x (i * T.nLanes + lane)) h
    simp only [Nat.testBit_and, testBit_valueMask bits T i hi] at h2
    have h3 : decide (i * T.nLanes ≤ i * T.nLanes + lane ∧
        i * T.nLanes + lane < i * T.nLanes + T.nLanes) = true := by
      rw [decide_eq_true_eq]; omega
    rw [h3, Bool.and_true] at h2
    exact h2.symm
  · intro h
    apply Nat.eq_of_testBit_eq
    intro k
    rw [Nat.testBit_and, testBit_valueMask bits T i hi]
    by_cases hr : i * T.nLanes ≤ k ∧ k < i * T.nLanes + T.nLanes
    · have h2 := h (k - i * T.nLanes) (by omega)
      rw [condition_eq_testBit bits T i _ _ (by omega)] at h2
      have h3 : i * T.nLanes + (k - i * T.nLanes) = k := by omega
      rw [h3] at h2
      simp [hr, h2]
    · simp [hr]

theorem False_iff_forall_condition (bits : Nat) (T : SimdMaskTraits tReg) (i : Nat)
    (m : SimdMask) (hi : keyFits bits T i) :
    False bits T i m = true ↔
      ∀ lane, lane < T.nLanes → condition bits T i lane m = false := by
  have hi2 := keyFits_lanes_le hi
  unfold False
  rw [decide_eq_true_eq]
  constructor
  · intro h lane hlane
    rw [condition_eq_testBit bits T i lane _ (by omega)]
    have h2 := congrArg (fun x => Nat.testBit x (i * T.nLanes + lane)) h
    simp only [Nat.testBit_and, testBit_valueMask bits T i hi, Nat.zero_testBit] at h2
    have h3 : decide (i * T.nLanes ≤ i * T.nLanes + lane ∧
        i * T.nLanes + lane < i * T.nLanes + T.nLanes) = true := by
      rw [decide_eq_true_eq]; omega
    rw [h3, Bool.and_true] at h2
    exact h2.symm
  · intro h
    apply Nat.eq_of_testBit_eq
    intro k
    rw [Nat.testBit_and, testBit_valueMask bits T i hi, Nat.zero_testBit]
    by_cases hr : i * T.nLanes ≤ k ∧ k < i * T.nLanes + T.nLanes
    · have h2 := h (k - i * T.nLanes) (by omega)
      rw [condition_eq_testBit bits T i _ _ (by omega)] at h2
      have h3 : i * T.nLanes + (k - i * T.nLanes) = k := by omega
      rw [h3] at h2
      simp [h2]
    · simp [hr]

theorem testBit_setVector_self (elemBits L bits i lane : Nat) (m : SimdMask)
    (r : Fin L → Nat) (hi : keyFits bits (laneTraits elemBits L) i) (hl : lane < L) :
    (setVector bits (laneTraits elemBits L) i r m).m_mask.testBit (i * L + lane)
      = (m.m_mask.testBit (i * L + lane) || (r ⟨lane, hl⟩).testBit (elemBits - 1)) := by
  have hi2 : i * L + L ≤ bits := keyFits_lanes_le hi
  unfold setVector
  rw [testBit_combine_or]
  have h1 : decide (i * L + lane < bits) = true := by
    rw [decide_eq_true_eq]; omega
  have h2 : decide (i * L + lane ≥ i * (laneTraits elemBits L).nLanes) = true := by
    rw [decide_eq_true_eq]
    show i * L + lane ≥ i * L
    omega
  have h3 : i * L + lane - i * (laneTraits elemBits L).nLanes = lane := by
    show i * L + lane - i * L = lane
    omega
  rw [h1, h2, h3, Bool.true_and, Bool.true_and,
    testBit_fromVector_laneTraits elemBits L bits r lane hl (by omega)]

theorem condition_setVector_self (elemBits L bits i lane : Nat) (m : SimdMask)
    (r : Fin L → Nat) (hi : keyFits bits (laneTraits elemBits L) i) (hl : lane < L) :
    condition bits (laneTraits elemBits L) i lane
        (setVector bits (laneTraits elemBits L) i r m)
      = (condition bits (laneTraits elemBits L) i lane m ||
          (r ⟨lane, hl⟩).testBit (elemBits - 1)) := by
  have hi2 : i * L + L ≤ bits := keyFits_lanes_le hi
  rw [condition_eq_testBit bits _ i lane _ (by show i * L + lane < bits; omega),
    condition_eq_testBit bits _ i lane _ (by show i * L + lane < bits; omega)]
  exact testBit_setVector_self elemBits L bits i lane m r hi hl

theorem testBit_lane_eq_allOnes (elemBits : Nat) (he : 0 < elemBits) (x : Nat)
    (hx : x = allOnes elemBits ∨ x = 0) :
    x.testBit (elemBits - 1) = true ↔ x = allOnes elemBits := by
  rcases hx with h | h
  · rw [h]
    simp [testBit_allOnes_top elemBits he]
  · rw [h]
    simp [(allOnes_ne_zero elemBits he).symm]

theorem testBit_setAll (bits : Nat) (T : SimdMaskTraits tReg) (i : Nat)
    (m : SimdMask) (hL : T.nLanes < 32) (hi : keyFits bits T i) (k : Nat) :
    (setAll bits T i m).m_mask.testBit k
      = (m.m_mask.testBit k ||
          decide (i * T.nLanes ≤ k ∧ k < i * T.nLanes + T.nLanes)) := by
  have hi2 := keyFits_lanes_le hi
  have hall := allSetMask_eq bits T (by omega)
  have hpos : 0 < 2 ^ T.nLanes := Nat.pow_pos (by decide)
  have hlt31 : 2 ^ T.nLanes ≤ 2 ^ 31 := Nat.pow_le_pow_right (by decide) (by omega)
  have hltb : 2 ^ T.nLanes ≤ 2 ^ bits := Nat.pow_le_pow_right (by decide) (by omega)
  have hint : toInt (allSetMask bits T) = ((allSetMask bits T : Nat) : Int) := by
    unfold toInt
    have h1 : allSetMask bits T % 2 ^ 32 = allSetMask bits T := by
      apply Nat.mod_eq_of_lt
      rw [hall]
      have : (2:Nat) ^ 31 < 2 ^ 32 := by decide
      omega
    rw [h1, if_pos (by rw [hall]; omega)]
  have hmask : toMask bits (toInt (allSetMask bits T)) = allSetMask bits T := by
    rw [hint, toMask_of_nonneg bits _ (Int.ofNat_nonneg _), Int.toNat_ofNat]
    apply Nat.mod_eq_of_lt
    rw [hall]
    omega
  unfold setAll
  rw [testBit_combine_or, hmask, testBit_allSetMask bits T (by omega)]
  congr 1
  rw [Bool.eq_iff_iff]
  simp only [Bool.and_eq_true, decide_eq_true_eq, ge_iff_le]
  omega

end SimdMask


/-! ## The predicate mask: the claims -/

namespace SimdMask

variable {tReg : Type}

/-- C1. Disjointness of merge: for two distinct keys `i ≠ j` that both fit in the word and a
register whose extracted lane bits form an integer in `[0, 2^L)`, `setVector<Pi>` leaves
every bit of the range `[j*L, j*L+L)` of `Pj` as it was, and hence `condition<Pj>(lane)` is
unchanged for every lane in `[0, L)`. -/
theorem setVector_keeps_other_key (bits : Nat) (T : SimdMaskTraits tReg) (i j : Nat)
    (m : SimdMask) (r : tReg) (hij : i ≠ j) (_hi : keyFits bits T i) (hj : keyFits bits T j)
    (h0 : 0 ≤ T.fromVector r) (h1 : T.fromVector r < 2 ^ T.nLanes) :
    (∀ k, j * T.nLanes ≤ k → k < j * T.nLanes + T.nLanes →
        (setVector bits T i r m).m_mask.testBit k = m.m_mask.testBit k) ∧
    (∀ lane, lane < T.nLanes →
        condition bits T j lane (setVector bits T i r m) = condition bits T j lane m) :=
  ⟨fun k hk1 hk2 => testBit_setVector_other bits T i j m r hij h0 h1 k hk1 hk2,
   fun lane hlane => condition_setVector_other bits T i j m r hij hj h0 h1 lane hlane⟩

/-- C2. Aggregate queries equal a per-lane scan: for a key that fits in the word (and every
lane count, in particular 2, 4 and 8), `True<Pi>()` holds exactly when `condition<Pi>(lane)`
is true for every lane in `[0, L)`, and `False<Pi>()` holds exactly when `condition<Pi>(lane)`
is false for every lane in `[0, L)`. -/
theorem aggregate_eq_lane_scan (bits : Nat) (T : SimdMaskTraits tReg) (i : Nat)
    (m : SimdMask) (hi : keyFits bits T i) :
    (True bits T i m = true ↔
        ∀ lane, lane < T.nLanes → condition bits T i lane m = true) ∧
    (False bits T i m = true ↔
        ∀ lane, lane < T.nLanes → condition bits T i lane m = false) :=
  ⟨True_iff_forall_condition bits T i m hi, False_iff_forall_condition bits T i m hi⟩

/-- C3. Bit layout: for a key that fits, a lane in `[0, L)` and a comparison register whose
lanes are each all-ones or all-zero, after `setVector<Pi>` the query `condition<Pi>(lane)` is
true exactly when it was true before or the lane of the register is true (all-ones); on a
freshly constructed mask, bit `i*L + lane` is 1 exactly when the lane of the register is true;
and the bit index `i*L + lane` is below the word width. -/
theorem setVector_bit_layout (elemBits L bits i lane : Nat) (m : SimdMask)
    (r : Fin L → Nat) (he : 0 < elemBits) (hi : keyFits bits (laneTraits elemBits L) i)
    (hl : lane < L) (hr : ∀ k, r k = allOnes elemBits ∨ r k = 0) :
    (condition bits (laneTraits elemBits L) i lane
          (setVector bits (laneTraits elemBits L) i r m) = true ↔
        (condition bits (laneTraits elemBits L) i lane m = true ∨
          r ⟨lane, hl⟩ = allOnes elemBits)) ∧
    ((setVector bits (laneTraits elemBits L) i r SimdMask.new).m_mask.testBit (i * L + lane)
          = true ↔ r ⟨lane, hl⟩ = allOnes elemBits) ∧
    i * L + lane < bits := by
  have hi2 : i * L + L ≤ bits := keyFits_lanes_le hi
  have hlane := testBit_lane_eq_allOnes elemBits he (r ⟨lane, hl⟩) (hr ⟨lane, hl⟩)
  refine ⟨?_, ?_, by omega⟩
  · rw [condition_setVector_self elemBits L bits i lane m r hi hl, Bool.or_eq_true, hlane]
  · rw [testBit_setVector_self elemBits L bits i lane SimdMask.new r hi hl, ← hlane]
    simp [SimdMask.new]

/-- C4. The method `clear<Pi>()` zeroes exactly the field of `Pi`: for a key that fits,
`False<Pi>()` is true after the call, and for every other key `Pj` that fits and every lane in
`[0, L)`, `condition<Pj>(lane)` has the value it had before the call. -/
theorem clear_zeroes_own_field (bits : Nat) (T : SimdMaskTraits tReg) (i : Nat)
    (m : SimdMask) (hi : keyFits bits T i) :
    False bits T i (clear bits T i m) = true ∧
    (∀ j lane, j ≠ i → keyFits bits T j → lane < T.nLanes →
        condition bits T j lane (clear bits T i m) = condition bits T j lane m) := by
  constructor
  · unfold False
    rw [decide_eq_true_eq]
    apply Nat.eq_of_testBit_eq
    intro k
    rw [Nat.testBit_and, testBit_valueMask bits T i hi, testBit_clear bits T i m hi,
      Nat.zero_testBit]
    cases decide (i * T.nLanes ≤ k ∧ k < i * T.nLanes + T.nLanes) <;> simp
  · intro j lane hji hj hlane
    have hj2 := keyFits_lanes_le hj
    rw [condition_eq_testBit bits T j lane _ (by omega),
      condition_eq_testBit bits T j lane _ (by omega), testBit_clear bits T i m hi]
    have h1 : decide (j * T.nLanes + lane < bits) = true := by
      rw [decide_eq_true_eq]; omega
    have h2 : decide (i * T.nLanes ≤ j * T.nLanes + lane ∧
        j * T.nLanes + lane < i * T.nLanes + T.nLanes) = false := by
      rw [decide_eq_false_iff_not]
      rintro ⟨h3, h4⟩
      have := range_disjoint (Ne.symm hji) (Nat.le_add_right _ lane)
        (by omega : j * T.nLanes + lane < j * T.nLanes + T.nLanes) h3
      omega
    rw [h1, h2]
    simp

/-- C5. The method `setAll<Pi>()` ORs a full all-ones field into the range of `Pi`: for a key
that fits (with fewer than 32 lanes, so that `(int)allSetMask` keeps its value, as for 2, 4 or
8 lanes in a 32-bit or 64-bit word), `True<Pi>()` is true after the call, every bit outside
`[i*L, i*L+L)` is unchanged, and `allSetMask` equals `2^L - 1`. -/
theorem setAll_fills_own_field (bits : Nat) (T : SimdMaskTraits tReg) (i : Nat)
    (m : SimdMask) (hL : T.nLanes < 32) (hi : keyFits bits T i) :
    True bits T i (setAll bits T i m) = true ∧
    (∀ k, ¬ (i * T.nLanes ≤ k ∧ k < i * T.nLanes + T.nLanes) →
        (setAll bits T i m).m_mask.testBit k = m.m_mask.testBit k) ∧
    allSetMask bits T = 2 ^ T.nLanes - 1 := by
  have hi2 := keyFits_lanes_le hi
  refine ⟨?_, ?_, allSetMask_eq bits T (by omega)⟩
  · unfold True
    rw [decide_eq_true_eq]
    apply Nat.eq_of_testBit_eq
    intro k
    rw [Nat.testBit_and, testBit_setAll bits T i m hL hi, testBit_valueMask bits T i hi]
    cases decide (i * T.nLanes ≤ k ∧ k < i * T.nLanes + T.nLanes) <;> simp
  · intro k hk
    rw [testBit_setAll bits T i m hL hi]
    simp [hk]

end SimdMask


namespace SimdMask

theorem setVector_keeps_other_key_witness :
    (keyFits 32 SimdMaskTraits.m128 0 ∧ keyFits 32 SimdMaskTraits.m128 1) ∧
    ((∀ k, 1 * SimdMaskTraits.m128.nLanes ≤ k →
        k < 1 * SimdMaskTraits.m128.nLanes + SimdMaskTraits.m128.nLanes →
        (setVector 32 SimdMaskTraits.m128 0 (lanes (allOnes 32) 0 (allOnes 32) 0)
          { m_mask := 0xA0 }).m_mask.testBit k = (SimdMask.mk 0xA0).m_mask.testBit k) ∧
     (∀ lane, lane < SimdMaskTraits.m128.nLanes →
        condition 32 SimdMaskTraits.m128 1 lane
          (setVector 32 SimdMaskTraits.m128 0 (lanes (allOnes 32) 0 (allOnes 32) 0)
            { m_mask := 0xA0 })
          = condition 32 SimdMaskTraits.m128 1 lane { m_mask := 0xA0 })) :=
  ⟨by decide,
   setVector_keeps_other_key 32 SimdMaskTraits.m128 0 1 { m_mask := 0xA0 }
     (lanes (allOnes 32) 0 (allOnes 32) 0) (by decide) (by decide) (by decide) (by decide)
     (by decide)⟩

theorem aggregate_eq_lane_scan_witness :
    keyFits 32 SimdMaskTraits.m128 1 ∧
    ((True 32 SimdMaskTraits.m128 1 { m_mask := 0xF0 } = true ↔
        ∀ lane, lane < SimdMaskTraits.m128.nLanes →
          condition 32 SimdMaskTraits.m128 1 lane { m_mask := 0xF0 } = true) ∧
     (False 32 SimdMaskTraits.m128 1 { m_mask := 0xF0 } = true ↔
        ∀ lane, lane < SimdMaskTraits.m128.nLanes →
          condition 32 SimdMaskTraits.m128 1 lane { m_mask := 0xF0 } = false)) :=
  ⟨by decide, aggregate_eq_lane_scan 32 SimdMaskTraits.m128 1 { m_mask := 0xF0 } (by decide)⟩

theorem setVector_bit_layout_witness :
    (0 < 32 ∧ keyFits 32 (laneTraits 32 4) 1 ∧ 2 < 4 ∧
      ∀ k : Fin 4, lanes (allOnes 32) 0 (allOnes 32) 0 k = allOnes 32 ∨
        lanes (allOnes 32) 0 (allOnes 32) 0 k = 0) ∧
    ((condition 32 (laneTraits 32 4) 1 2
          (setVector 32 (laneTraits 32 4) 1 (lanes (allOnes 32) 0 (allOnes 32) 0)
            { m_mask := 0x3 }) = true ↔
        (condition 32 (laneTraits 32 4) 1 2 { m_mask := 0x3 } = true ∨
          lanes (allOnes 32) 0 (allOnes 32) 0 (⟨2, by decide⟩ : Fin 4) = allOnes 32)) ∧
     ((setVector 32 (laneTraits 32 4) 1 (lanes (allOnes 32) 0 (allOnes 32) 0)
          SimdMask.new).m_mask.testBit (1 * 4 + 2) = true ↔
        lanes (allOnes 32) 0 (allOnes 32) 0 (⟨2, by decide⟩ : Fin 4) = allOnes 32) ∧
     1 * 4 + 2 < 32) :=
  ⟨⟨by decide, by decide, by decide, by decide⟩,
   setVector_bit_layout 32 4 32 1 2 { m_mask := 0x3 } (lanes (allOnes 32) 0 (allOnes 32) 0)
     (by decide) (by decide) (by decide) (by decide)⟩

theorem clear_zeroes_own_field_witness :
    keyFits 32 SimdMaskTraits.m128 2 ∧
    (False 32 SimdMaskTraits.m128 2 (clear 32 SimdMaskTraits.m128 2 { m_mask := 0xFA5 }) = true ∧
     (∀ j lane, j ≠ 2 → keyFits 32 SimdMaskTraits.m128 j → lane < SimdMaskTraits.m128.nLanes →
        condition 32 SimdMaskTraits.m128 j lane
            (clear 32 SimdMaskTraits.m128 2 { m_mask := 0xFA5 })
          = condition 32 SimdMaskTraits.m128 j lane { m_mask := 0xFA5 })) :=
  ⟨by decide, clear_zeroes_own_field 32 SimdMaskTraits.m128 2 { m_mask := 0xFA5 } (by decide)⟩

theorem setAll_fills_own_field_witness :
    (SimdMaskTraits.m256.nLanes < 32 ∧ keyFits 64 SimdMaskTraits.m256 7) ∧
    (True 64 SimdMaskTraits.m256 7 (setAll 64 SimdMaskTraits.m256 7 { m_mask := 0x5 }) = true ∧
     (∀ k, ¬ (7 * SimdMaskTraits.m256.nLanes ≤ k ∧
          k < 7 * SimdMaskTraits.m256.nLanes + SimdMaskTraits.m256.nLanes) →
        (setAll 64 SimdMaskTraits.m256 7 { m_mask := 0x5 }).m_mask.testBit k
          = (SimdMask.mk 0x5).m_mask.testBit k) ∧
     allSetMask 64 SimdMaskTraits.m256 = 2 ^ SimdMaskTraits.m256.nLanes - 1) :=
  ⟨by decide, setAll_fills_own_field 64 SimdMaskTraits.m256 7 { m_mask := 0x5 } (by decide)
    (by decide)⟩

end SimdMask


/-! ## The mask of the solver -/

theorem testBit_ite_allOnes (p : Prop) [Decidable p] :
    (if p then allOnes 32 else 0).testBit 31 = decide p := by
  by_cases h : p
  · rw [if_pos h]
    simpa [h] using testBit_allOnes_top 32 (by decide)
  · rw [if_neg h]
    simp [h]

namespace Mask

theorem key_fits (v : eTest) : SimdMask.keyFits 32 SimdMaskTraits.m128 v.toNat := by
  cases v <;> decide

theorem toNat_ne {v w : eTest} (h : v ≠ w) : v.toNat ≠ w.toNat := by
  cases v <;> cases w <;> first | exact absurd rfl h | decide

theorem condition_new (v : eTest) (lane : Nat) : condition v lane SimdMask.new = false := by
  unfold condition SimdMask.condition SimdMask.new
  simp

theorem condition_setVector_same_key (v : eTest) (r : Fin 4 → Nat) (m : Mask) (k : Fin 4) :
    condition v k.val (setVector v r m) = (condition v k.val m || (r k).testBit 31) :=
  SimdMask.condition_setVector_self 32 4 32 v.toNat k.val m r (key_fits v) k.isLt

theorem condition_setVector_other_key (v w : eTest) (h : v ≠ w) (r : Fin 4 → Nat) (m : Mask)
    (k : Fin 4) : condition w k.val (setVector v r m) = condition w k.val m :=
  SimdMask.condition_setVector_other 32 SimdMaskTraits.m128 v.toNat w.toNat m r (toNat_ne h)
    (key_fits w) (movemask_nonneg 32 r) (movemask_lt 32 r) k.val k.isLt

theorem True_iff (v : eTest) (m : Mask) :
    True v m = true ↔ ∀ k : Fin 4, condition v k.val m = true := by
  unfold True
  rw [SimdMask.True_iff_forall_condition 32 SimdMaskTraits.m128 v.toNat m (key_fits v)]
  constructor
  · intro h k
    exact h k.val k.isLt
  · intro h lane hlane
    exact h ⟨lane, hlane⟩

theorem False_iff (v : eTest) (m : Mask) :
    False v m = true ↔ ∀ k : Fin 4, condition v k.val m = false := by
  unfold False
  rw [SimdMask.False_iff_forall_condition 32 SimdMaskTraits.m128 v.toNat m (key_fits v)]
  constructor
  · intro h k
    exact h k.val k.isLt
  · intro h lane hlane
    exact h ⟨lane, hlane⟩

theorem countRoots_apply (fn : Nat → Int) (k : Fin 4) :
    countRoots fn k = fn (Fin.rev k).val := by
  fin_cases k <;> rfl

end Mask

/-! ## The working coefficients -/

theorem canonA_eq (a : Fin 4 → ℚ) (k : Fin 4) : canonA a k = |a k| := by
  unfold canonA xorSign signOf
  by_cases h : a k < 0
  · simp [h, abs_of_neg h]
  · simp [h, abs_of_nonneg (not_lt.mp h)]

theorem canonA_ne_zero (a : Fin 4 → ℚ) (k : Fin 4) : canonA a k ≠ 0 ↔ a k ≠ 0 := by
  rw [canonA_eq]
  exact abs_ne_zero

theorem canonB_eq_zero (a b : Fin 4 → ℚ) (k : Fin 4) : canonB a b k = 0 ↔ b k = 0 := by
  unfold canonB xorSign signOf
  by_cases h : a k < 0 <;> simp [h]

theorem discrOf_eq (a b c : Fin 4 → ℚ) (k : Fin 4) :
    discrOf a b c k = b k * b k - 4 * a k * c k := by
  unfold discrOf canonA canonB canonC xorSign signOf
  by_cases h : a k < 0 <;> simp [h] <;> ring

/-! ## The predicates held by the mask at each stage -/

theorem maskQP_Quadratic (a b c : Fin 4 → ℚ) (k : Fin 4) :
    (maskQP a b c).condition .Quadratic k.val = decide (a k ≠ 0) := by
  unfold maskQP
  rw [Mask.condition_setVector_other_key .DiscrPositive .Quadratic (by decide),
    Mask.condition_setVector_same_key, Mask.condition_new, Bool.false_or]
  unfold cmpneq_ps setzero_ps
  rw [testBit_ite_allOnes]
  exact decide_eq_decide.mpr (canonA_ne_zero a k)

theorem maskQP_DiscrPositive (a b c : Fin 4 → ℚ) (k : Fin 4) :
    (maskQP a b c).condition .DiscrPositive k.val = decide (0 < discrOf a b c k) := by
  unfold maskQP
  rw [Mask.condition_setVector_same_key,
    Mask.condition_setVector_other_key .Quadratic .DiscrPositive (by decide),
    Mask.condition_new, Bool.false_or]
  unfold cmpgt_ps setzero_ps
  rw [testBit_ite_allOnes]

theorem maskQPN_Quadratic (a b c : Fin 4 → ℚ) (k : Fin 4) :
    (maskQPN a b c).condition .Quadratic k.val = decide (a k ≠ 0) := by
  unfold maskQPN
  rw [Mask.condition_setVector_other_key .DiscrNegative .Quadratic (by decide),
    maskQP_Quadratic]

theorem maskQPN_DiscrPositive (a b c : Fin 4 → ℚ) (k : Fin 4) :
    (maskQPN a b c).condition .DiscrPositive k.val = decide (0 < discrOf a b c k) := by
  unfold maskQPN
  rw [Mask.condition_setVector_other_key .DiscrNegative .DiscrPositive (by decide),
    maskQP_DiscrPositive]

theorem maskQP_DiscrNegative (a b c : Fin 4 → ℚ) (k : Fin 4) :
    (maskQP a b c).condition .DiscrNegative k.val = false := by
  unfold maskQP
  rw [Mask.condition_setVector_other_key .DiscrPositive .DiscrNegative (by decide),
    Mask.condition_setVector_other_key .Quadratic .DiscrNegative (by decide),
    Mask.condition_new]

theorem maskQPN_DiscrNegative (a b c : Fin 4 → ℚ) (k : Fin 4) :
    (maskQPN a b c).condition .DiscrNegative k.val = decide (discrOf a b c k ≤ 0) := by
  unfold maskQPN
  rw [Mask.condition_setVector_same_key, maskQP_DiscrNegative, Bool.false_or]
  unfold cmple_ps setzero_ps
  rw [testBit_ite_allOnes]

theorem maskAll_Quadratic (a b c : Fin 4 → ℚ) (k : Fin 4) :
    (maskAll a b c).condition .Quadratic k.val = decide (a k ≠ 0) := by
  unfold maskAll
  rw [Mask.condition_setVector_other_key .ZeroB .Quadratic (by decide), maskQPN_Quadratic]

theorem maskAll_DiscrPositive (a b c : Fin 4 → ℚ) (k : Fin 4) :
    (maskAll a b c).condition .DiscrPositive k.val = decide (0 < discrOf a b c k) := by
  unfold maskAll
  rw [Mask.condition_setVector_other_key .ZeroB .DiscrPositive (by decide),
    maskQPN_DiscrPositive]

theorem maskAll_DiscrNegative (a b c : Fin 4 → ℚ) (k : Fin 4) :
    (maskAll a b c).condition .DiscrNegative k.val = decide (discrOf a b c k ≤ 0) := by
  unfold maskAll
  rw [Mask.condition_setVector_other_key .ZeroB .DiscrNegative (by decide),
    maskQPN_DiscrNegative]

theorem maskAll_ZeroB (a b c : Fin 4 → ℚ) (k : Fin 4) :
    (maskAll a b c).condition .ZeroB k.val = decide (b k = 0) := by
  unfold maskAll maskQPN maskQP
  rw [Mask.condition_setVector_same_key,
    Mask.condition_setVector_other_key .DiscrNegative .ZeroB (by decide),
    Mask.condition_setVector_other_key .DiscrPositive .ZeroB (by decide),
    Mask.condition_setVector_other_key .Quadratic .ZeroB (by decide),
    Mask.condition_new, Bool.false_or]
  unfold cmpeq_ps setzero_ps
  rw [testBit_ite_allOnes]
  exact decide_eq_decide.mpr (canonB_eq_zero a b k)


/-! ## The routing of `solveQuadratic` -/

theorem solveQuadratic_eq (sqrtf : ℚ → Lane) (a b c : Fin 4 → ℚ) :
    solveQuadratic sqrtf a b c =
      if (maskQP a b c).True .Quadratic && (maskQP a b c).True .DiscrPositive then
        (Solution.uninit.quadraticFormula sqrtf (canonA a) (canonB a b)
          (discrOf a b c)).sameRootsCount 2
      else if (maskQPN a b c).True .Quadratic then
        if (maskQPN a b c).True .DiscrNegative then
          { Solution.uninit with rootsCount := setzero_all }
        else
          { Solution.uninit.quadraticFormula sqrtf (canonA a) (canonB a b) (discrOf a b c) with
            rootsCount := (maskQPN a b c).countQuadraticRoots }
      else if (maskAll a b c).False .Quadratic then
        if (maskAll a b c).False .ZeroB then
          Solution.sameRootsCount 1
            { Solution.uninit with
              r1 := fun k => Lane.div (some (canonC a c k)) (some (canonB a b k)) }
        else
          { Solution.uninit with
            r1 := fun k => Lane.div (some (canonC a c k)) (some (canonB a b k))
            rootsCount := (maskAll a b c).countLinearRoots }
      else
        { Solution.uninit.quadraticFormula sqrtf (canonA a) (canonB a b) (discrOf a b c) with
          r1 := blendv_ps (fun k => Lane.div (some (canonC a c k)) (some (canonB a b k)))
            (Solution.uninit.quadraticFormula sqrtf (canonA a) (canonB a b)
              (discrOf a b c)).r1 (cmpneq_ps (canonA a) setzero_ps)
          rootsCount := (maskAll a b c).countAllRoots } :=
  rfl

theorem maskQP_True_Quadratic (a b c : Fin 4 → ℚ) :
    (maskQP a b c).True .Quadratic = true ↔ ∀ j, a j ≠ 0 := by
  rw [Mask.True_iff]
  simp only [maskQP_Quadratic, decide_eq_true_eq]

theorem maskQP_True_DiscrPositive (a b c : Fin 4 → ℚ) :
    (maskQP a b c).True .DiscrPositive = true ↔ ∀ j, 0 < discrOf a b c j := by
  rw [Mask.True_iff]
  simp only [maskQP_DiscrPositive, decide_eq_true_eq]

theorem maskQPN_True_Quadratic (a b c : Fin 4 → ℚ) :
    (maskQPN a b c).True .Quadratic = true ↔ ∀ j, a j ≠ 0 := by
  rw [Mask.True_iff]
  simp only [maskQPN_Quadratic, decide_eq_true_eq]

theorem maskQPN_True_DiscrNegative (a b c : Fin 4 → ℚ) :
    (maskQPN a b c).True .DiscrNegative = true ↔ ∀ j, discrOf a b c j ≤ 0 := by
  rw [Mask.True_iff]
  simp only [maskQPN_DiscrNegative, decide_eq_true_eq]

theorem maskAll_False_Quadratic (a b c : Fin 4 → ℚ) :
    (maskAll a b c).False .Quadratic = true ↔ ∀ j, a j = 0 := by
  rw [Mask.False_iff]
  simp only [maskAll_Quadratic, decide_eq_false_iff_not, not_not, ne_eq]

theorem maskAll_False_ZeroB (a b c : Fin 4 → ℚ) :
    (maskAll a b c).False .ZeroB = true ↔ ∀ j, b j ≠ 0 := by
  rw [Mask.False_iff]
  simp only [maskAll_ZeroB, decide_eq_false_iff_not, ne_eq]

theorem quadraticRoots_maskQPN (a b c : Fin 4 → ℚ) (k : Fin 4) :
    Mask.quadraticRoots (maskQPN a b c) k.val = quadraticCount (discrOf a b c k) := by
  unfold Mask.quadraticRoots quadraticCount
  rw [maskQPN_DiscrNegative, maskQPN_DiscrPositive]
  simp only [decide_eq_true_eq]

theorem quadraticRoots_maskAll (a b c : Fin 4 → ℚ) (k : Fin 4) :
    Mask.quadraticRoots (maskAll a b c) k.val = quadraticCount (discrOf a b c k) := by
  unfold Mask.quadraticRoots quadraticCount
  rw [maskAll_DiscrNegative, maskAll_DiscrPositive]
  simp only [decide_eq_true_eq]

theorem linearRoots_maskAll (a b c : Fin 4 → ℚ) (k : Fin 4) :
    Mask.linearRoots (maskAll a b c) k.val = linearCount (b k) := by
  unfold Mask.linearRoots linearCount
  rw [maskAll_ZeroB]
  by_cases h : b k = 0 <;> simp [h]

theorem generalRoots_maskAll (a b c : Fin 4 → ℚ) (k : Fin 4) :
    Mask.generalRoots (maskAll a b c) k.val
      = if a k ≠ 0 then quadraticCount (discrOf a b c k) else linearCount (b k) := by
  unfold Mask.generalRoots
  rw [maskAll_Quadratic, quadraticRoots_maskAll, linearRoots_maskAll]
  simp only [decide_eq_true_eq]

/-- The count that `solveQuadratic` stores in lane `k`, in terms of the coefficients: the
per-lane classifiers are evaluated at the mirrored lane `Fin.rev k` (lane `3 - k`), because
`countRoots` passes the result for lane 0 as the first argument of `set_epi32`. -/
theorem rootsCount_eq (sqrtf : ℚ → Lane) (a b c : Fin 4 → ℚ) (k : Fin 4) :
    (solveQuadratic sqrtf a b c).rootsCount k =
      if (∀ j, a j ≠ 0) ∧ (∀ j, 0 < discrOf a b c j) then 2
      else if ∀ j, a j ≠ 0 then
        if ∀ j, discrOf a b c j ≤ 0 then 0
        else quadraticCount (discrOf a b c (Fin.rev k))
      else if ∀ j, a j = 0 then
        if ∀ j, b j ≠ 0 then 1
        else linearCount (b (Fin.rev k))
      else if a (Fin.rev k) ≠ 0 then quadraticCount (discrOf a b c (Fin.rev k))
      else linearCount (b (Fin.rev k)) := by
  rw [solveQuadratic_eq]
  by_cases h1 : (∀ j, a j ≠ 0) ∧ (∀ j, 0 < discrOf a b c j)
  · rw [if_pos h1, if_pos (by
      rw [Bool.and_eq_true, maskQP_True_Quadratic, maskQP_True_DiscrPositive]; exact h1)]
    rfl
  · rw [if_neg h1, if_neg (by
      rw [Bool.and_eq_true, maskQP_True_Quadratic, maskQP_True_DiscrPositive]; exact h1)]
    by_cases h2 : ∀ j, a j ≠ 0
    · rw [if_pos h2, if_pos ((maskQPN_True_Quadratic a b c).mpr h2)]
      by_cases h3 : ∀ j, discrOf a b c j ≤ 0
      · rw [if_pos h3, if_pos ((maskQPN_True_DiscrNegative a b c).mpr h3)]
        rfl
      · rw [if_neg h3, if_neg (fun h => h3 ((maskQPN_True_DiscrNegative a b c).mp h))]
        show (maskQPN a b c).countQuadraticRoots k = _
        unfold Mask.countQuadraticRoots
        rw [Mask.countRoots_apply, quadraticRoots_maskQPN]
    · rw [if_neg h2, if_neg (fun h => h2 ((maskQPN_True_Quadratic a b c).mp h))]
      by_cases h3 : ∀ j, a j = 0
      · rw [if_pos h3, if_pos ((maskAll_False_Quadratic a b c).mpr h3)]
        by_cases h4 : ∀ j, b j ≠ 0
        · rw [if_pos h4, if_pos ((maskAll_False_ZeroB a b c).mpr h4)]
          rfl
        · rw [if_neg h4, if_neg (fun h => h4 ((maskAll_False_ZeroB a b c).mp h))]
          show (maskAll a b c).countLinearRoots k = _
          unfold Mask.countLinearRoots
          rw [Mask.countRoots_apply, linearRoots_maskAll]
      · rw [if_neg h3, if_neg (fun h => h3 ((maskAll_False_Quadratic a b c).mp h))]
        show (maskAll a b c).countAllRoots k = _
        unfold Mask.countAllRoots
        rw [Mask.countRoots_apply, generalRoots_maskAll]

theorem quadraticCount_cases (d : ℚ) :
    quadraticCount d = 0 ∨ quadraticCount d = 1 ∨ quadraticCount d = 2 := by
  unfold quadraticCount
  split_ifs <;> simp

theorem linearCount_cases (x : ℚ) :
    linearCount x = 0 ∨ linearCount x = 1 ∨ linearCount x = 2 := by
  unfold linearCount
  split_ifs <;> simp

theorem quadraticCount_eq_zero (d : ℚ) : quadraticCount d = 0 ↔ d ≤ 0 := by
  unfold quadraticCount
  split_ifs with h1 h2
  · simp [h1]
  · simp [h1]
  · simp [h1]

theorem linearCount_eq_zero (x : ℚ) : linearCount x = 0 ↔ x = 0 := by
  unfold linearCount
  split_ifs with h1
  · simp [h1]
  · simp [not_not.mp h1]

/-! ## The solver: the claims -/

/-- C6. For every input batch `(a, b, c)` and every lane, the returned `rootsCount` of that
lane is 0, 1 or 2, whichever routing branch is taken (and whatever the square root). -/
theorem rootsCount_mem (sqrtf : ℚ → Lane) (a b c : Fin 4 → ℚ) (k : Fin 4) :
    (solveQuadratic sqrtf a b c).rootsCount k = 0 ∨
    (solveQuadratic sqrtf a b c).rootsCount k = 1 ∨
    (solveQuadratic sqrtf a b c).rootsCount k = 2 := by
  rw [rootsCount_eq]
  split_ifs
  · simp
  · simp
  · exact quadraticCount_cases _
  · simp
  · exact linearCount_cases _
  · exact quadraticCount_cases _
  · exact linearCount_cases _


/-- C7, the code at the failing input. In the batch `a = [1,1,1,1]`, `b = [-4,-4,-4,-4]`,
`c = [4,4,4,4]` every lane has `a ≠ 0` and a discriminant `b^2 - 4ac` of exactly 0, and
`solveQuadratic` returns the count 0 in every lane, where the discriminant-sign rule asks
for 1. In the batch `a = [1,1,1,1]`, `b = [0,0,0,0]`, `c = [-1,1,1,1]` the discriminants are
`[4,-4,-4,-4]` and the returned counts are `[0,0,0,2]`, where the rule asks for `[2,0,0,0]`. -/
theorem discriminant_rule_fails :
    (∀ k : Fin 4, (lanes 1 1 1 1 : Fin 4 → ℚ) k ≠ 0 ∧
        (lanes (-4) (-4) (-4) (-4) : Fin 4 → ℚ) k * lanes (-4) (-4) (-4) (-4) k
          - 4 * lanes 1 1 1 1 k * lanes 4 4 4 4 k = 0 ∧
        (solveQuadratic sqrtExact (lanes 1 1 1 1) (lanes (-4) (-4) (-4) (-4))
          (lanes 4 4 4 4)).rootsCount k = 0) ∧
    (List.finRange 4).map (fun k => (lanes 0 0 0 0 : Fin 4 → ℚ) k * lanes 0 0 0 0 k
          - 4 * lanes 1 1 1 1 k * lanes (-1) 1 1 1 k) = [4, -4, -4, -4] ∧
    (List.finRange 4).map
        (solveQuadratic sqrtExact (lanes 1 1 1 1) (lanes 0 0 0 0) (lanes (-1) 1 1 1)).rootsCount
      = [0, 0, 0, 2] := by
  decide!

/-- C8, the claim as stated fails. In the batch `a = [0,0,0,0]`, `b = [0,1,1,0]`,
`c = [0,2,3,0]` lane 0 holds `a = b = c = 0`; `solveQuadratic` returns the count 0 for lane 0,
although that lane has neither `a ≠ 0` with a negative discriminant nor `a = 0`, `b = 0` with
`c ≠ 0`. -/
theorem no_roots_claim_fails :
    (solveQuadratic sqrtExact (lanes 0 0 0 0) (lanes 0 1 1 0) (lanes 0 2 3 0)).rootsCount 0 = 0 ∧
    ¬ (((lanes 0 0 0 0 : Fin 4 → ℚ) 0 ≠ 0 ∧
          (lanes 0 1 1 0 : Fin 4 → ℚ) 0 * lanes 0 1 1 0 0
            - 4 * lanes 0 0 0 0 0 * lanes 0 2 3 0 0 < 0) ∨
        ((lanes 0 0 0 0 : Fin 4 → ℚ) 0 = 0 ∧ (lanes 0 1 1 0 : Fin 4 → ℚ) 0 = 0 ∧
          (lanes 0 2 3 0 : Fin 4 → ℚ) 0 ≠ 0)) := by
  decide!

/-- C8, amended. For every input batch and every lane `k` whose mirror lane `3 - k` holds the
same three coefficients as lane `k`, and whose discriminant is not exactly 0 when `a ≠ 0`:
if `solveQuadratic` returns the count 0 for lane `k`, then either `a ≠ 0` and the discriminant
`b^2 - 4ac` is strictly negative, or `a = 0` and `b = 0` (whatever `c` is). -/
theorem no_roots_characterised (sqrtf : ℚ → Lane) (a b c : Fin 4 → ℚ) (k : Fin 4)
    (hmirror : a (Fin.rev k) = a k ∧ b (Fin.rev k) = b k ∧ c (Fin.rev k) = c k)
    (hd : a k ≠ 0 → b k * b k - 4 * a k * c k ≠ 0)
    (h0 : (solveQuadratic sqrtf a b c).rootsCount k = 0) :
    (a k ≠ 0 ∧ b k * b k - 4 * a k * c k < 0) ∨ (a k = 0 ∧ b k = 0) := by
  obtain ⟨ha, hb, hc⟩ := hmirror
  have hrev : discrOf a b c (Fin.rev k) = b k * b k - 4 * a k * c k := by
    rw [discrOf_eq, ha, hb, hc]
  have hquad : a k ≠ 0 → b k * b k - 4 * a k * c k ≤ 0 →
      (a k ≠ 0 ∧ b k * b k - 4 * a k * c k < 0) ∨ (a k = 0 ∧ b k = 0) :=
    fun h1 h2 => Or.inl ⟨h1, lt_of_le_of_ne h2 (hd h1)⟩
  rw [rootsCount_eq, hrev, ha, hb] at h0
  split_ifs at h0 with h1 h2 h3 h4 h5 h6
  · exact absurd h0 (by decide)
  · have := h3 k
    rw [discrOf_eq] at this
    exact hquad (h2 k) this
  · exact hquad (h2 k) ((quadraticCount_eq_zero _).mp h0)
  · exact absurd h0 (by decide)
  · exact Or.inr ⟨h4 k, (linearCount_eq_zero _).mp h0⟩
  · exact hquad h6 ((quadraticCount_eq_zero _).mp h0)
  · exact Or.inr ⟨not_not.mp h6, (linearCount_eq_zero _).mp h0⟩

theorem no_roots_characterised_witness :
    (((lanes 1 0 0 1 : Fin 4 → ℚ) (Fin.rev 0) = lanes 1 0 0 1 0 ∧
        (lanes 0 0 0 0 : Fin 4 → ℚ) (Fin.rev 0) = lanes 0 0 0 0 0 ∧
        (lanes 1 5 5 1 : Fin 4 → ℚ) (Fin.rev 0) = lanes 1 5 5 1 0) ∧
      ((lanes 1 0 0 1 : Fin 4 → ℚ) 0 ≠ 0 →
        (lanes 0 0 0 0 : Fin 4 → ℚ) 0 * lanes 0 0 0 0 0
          - 4 * lanes 1 0 0 1 0 * lanes 1 5 5 1 0 ≠ 0) ∧
      (solveQuadratic sqrtExact (lanes 1 0 0 1) (lanes 0 0 0 0) (lanes 1 5 5 1)).rootsCount 0
        = 0) ∧
    (((lanes 1 0 0 1 : Fin 4 → ℚ) 0 ≠ 0 ∧
        (lanes 0 0 0 0 : Fin 4 → ℚ) 0 * lanes 0 0 0 0 0
          - 4 * lanes 1 0 0 1 0 * lanes 1 5 5 1 0 < 0) ∨
      ((lanes 1 0 0 1 : Fin 4 → ℚ) 0 = 0 ∧ (lanes 0 0 0 0 : Fin 4 → ℚ) 0 = 0)) :=
  ⟨by decide!,
   no_roots_characterised sqrtExact (lanes 1 0 0 1) (lanes 0 0 0 0) (lanes 1 5 5 1) 0
     (by decide!) (by decide!) (by decide!)⟩

/-- C9, the code at the failing input. In the batch `a = [1,1,1,1]`, `b = [-4,-4,-4,-4]`,
`c = [4,4,4,4]` (the equation `x^2 - 4x + 4 = 0` in every lane) `solveQuadratic` returns the
count 0 in every lane, while `solveQuadratic_scalar( 1, -4, 4 )` returns the count 1 with the
root `r1 = 2`. -/
theorem scalar_reference_disagrees :
    ∀ k : Fin 4,
      (solveQuadratic sqrtExact (lanes 1 1 1 1) (lanes (-4) (-4) (-4) (-4))
          (lanes 4 4 4 4)).rootsCount k = 0 ∧
      solveQuadratic_scalar sqrtExact ((lanes 1 1 1 1 : Fin 4 → ℚ) k)
          ((lanes (-4) (-4) (-4) (-4) : Fin 4 → ℚ) k) ((lanes 4 4 4 4 : Fin 4 → ℚ) k)
        = (1, some 2, none) := by
  decide!

/-- C10, the code at the failing input. In the batch `a = [1,1,1,1]`, `b = [0,0,0,0]`,
`c = [-1,1,1,1]` lane 3 holds `x^2 + 1 = 0`, whose discriminant is `-4`; `solveQuadratic`
returns the count 2 for lane 3 (the count of lane 0), and the `r1` and `r2` of lane 3 come from
the square root of `-4`: they are no numbers, so `r1 <= r2` does not hold there. -/
theorem two_roots_unsorted_lane :
    (lanes 0 0 0 0 : Fin 4 → ℚ) 3 * lanes 0 0 0 0 3
        - 4 * lanes 1 1 1 1 3 * lanes (-1) 1 1 1 3 = -4 ∧
    (solveQuadratic sqrtExact (lanes 1 1 1 1) (lanes 0 0 0 0) (lanes (-1) 1 1 1)).rootsCount 3
      = 2 ∧
    (solveQuadratic sqrtExact (lanes 1 1 1 1) (lanes 0 0 0 0) (lanes (-1) 1 1 1)).r1 3 = none ∧
    (solveQuadratic sqrtExact (lanes 1 1 1 1) (lanes 0 0 0 0) (lanes (-1) 1 1 1)).r2 3 = none ∧
    ¬ ∃ x y : ℚ,
      (solveQuadratic sqrtExact (lanes 1 1 1 1) (lanes 0 0 0 0) (lanes (-1) 1 1 1)).r1 3
          = some x ∧
        (solveQuadratic sqrtExact (lanes 1 1 1 1) (lanes 0 0 0 0) (lanes (-1) 1 1 1)).r2 3
          = some y ∧ x ≤ y := by
  have h1 : (solveQuadratic sqrtExact (lanes 1 1 1 1) (lanes 0 0 0 0)
      (lanes (-1) 1 1 1)).r1 3 = none := by decide!
  refine ⟨by decide!, by decide!, h1, by decide!, ?_⟩
  rintro ⟨x, y, hx, -, -⟩
  rw [h1] at hx
  exact Option.noConfusion hx

/-! ## The roots stored by each routing branch -/

theorem solveQuadratic_route (sqrtf : ℚ → Lane) (a b c : Fin 4 → ℚ) :
    solveQuadratic sqrtf a b c =
      if (∀ j, a j ≠ 0) ∧ (∀ j, 0 < discrOf a b c j) then
        { rootsCount := set1_epi32 2, r1 := quadR1 sqrtf a b c, r2 := quadR2 sqrtf a b c }
      else if ∀ j, a j ≠ 0 then
        if ∀ j, discrOf a b c j ≤ 0 then
          { rootsCount := setzero_all, r1 := fun _ => none, r2 := fun _ => none }
        else
          { rootsCount := (maskQPN a b c).countQuadraticRoots, r1 := quadR1 sqrtf a b c,
            r2 := quadR2 sqrtf a b c }
      else if ∀ j, a j = 0 then
        if ∀ j, b j ≠ 0 then
          { rootsCount := set1_epi32 1, r1 := linR1 a b c, r2 := fun _ => none }
        else
          { rootsCount := (maskAll a b c).countLinearRoots, r1 := linR1 a b c,
            r2 := fun _ => none }
      else
        { rootsCount := (maskAll a b c).countAllRoots,
          r1 := blendv_ps (linR1 a b c) (quadR1 sqrtf a b c) (cmpneq_ps (canonA a) setzero_ps),
          r2 := quadR2 sqrtf a b c } := by
  rw [solveQuadratic_eq]
  by_cases h1 : (∀ j, a j ≠ 0) ∧ (∀ j, 0 < discrOf a b c j)
  · rw [if_pos h1, if_pos (by
      rw [Bool.and_eq_true, maskQP_True_Quadratic, maskQP_True_DiscrPositive]; exact h1)]
    rfl
  · rw [if_neg h1, if_neg (by
      rw [Bool.and_eq_true, maskQP_True_Quadratic, maskQP_True_DiscrPositive]; exact h1)]
    by_cases h2 : ∀ j, a j ≠ 0
    · rw [if_pos h2, if_pos ((maskQPN_True_Quadratic a b c).mpr h2)]
      by_cases h3 : ∀ j, discrOf a b c j ≤ 0
      · rw [if_pos h3, if_pos ((maskQPN_True_DiscrNegative a b c).mpr h3)]
        rfl
      · rw [if_neg h3, if_neg (fun h => h3 ((maskQPN_True_DiscrNegative a b c).mp h))]
        rfl
    · rw [if_neg h2, if_neg (fun h => h2 ((maskQPN_True_Quadratic a b c).mp h))]
      by_cases h3 : ∀ j, a j = 0
      · rw [if_pos h3, if_pos ((maskAll_False_Quadratic a b c).mpr h3)]
        by_cases h4 : ∀ j, b j ≠ 0
        · rw [if_pos h4, if_pos ((maskAll_False_ZeroB a b c).mpr h4)]
          rfl
        · rw [if_neg h4, if_neg (fun h => h4 ((maskAll_False_ZeroB a b c).mp h))]
          rfl
      · rw [if_neg h3, if_neg (fun h => h3 ((maskAll_False_Quadratic a b c).mp h))]
        rfl

theorem solveQuadratic_general_eq (sqrtf : ℚ → Lane) (a b c : Fin 4 → ℚ) :
    solveQuadratic_general sqrtf a b c =
      { rootsCount := (maskAll a b c).countAllRoots,
        r1 := blendv_ps (linR1 a b c) (quadR1 sqrtf a b c) (cmpneq_ps (canonA a) setzero_ps),
        r2 := quadR2 sqrtf a b c } :=
  rfl

theorem blendv_ps_lane_select (x y : Fin 4 → Lane) (m : Fin 4 → Nat) (k : Fin 4)
    (hm : m k = allOnes 32 ∨ m k = 0) :
    blendv_ps x y m k = if m k = allOnes 32 then y k else x k := by
  have hne : allOnes 32 ≠ 0 := allOnes_ne_zero 32 (by decide)
  unfold blendv_ps or_ps andnot_ps and_ps
  rcases hm with h | h
  · simp [h, hne]
  · simp only [h, hne.symm, if_true, if_false]
    by_cases hx : x k = some 0
    · simp [hx]
    · simp [hx]

theorem blendv_ps_cmpneq (x y : Fin 4 → Lane) (a : Fin 4 → ℚ) (k : Fin 4) :
    blendv_ps x y (cmpneq_ps (canonA a) setzero_ps) k = if a k ≠ 0 then y k else x k := by
  have hne : allOnes 32 ≠ 0 := allOnes_ne_zero 32 (by decide)
  have hm : cmpneq_ps (canonA a) setzero_ps k = if a k ≠ 0 then allOnes 32 else 0 := by
    unfold cmpneq_ps setzero_ps
    by_cases h : a k = 0
    · rw [if_neg (fun h2 => (canonA_ne_zero a k).mp h2 h), if_neg (fun h2 => h2 h)]
    · rw [if_pos ((canonA_ne_zero a k).mpr h), if_pos h]
  rw [blendv_ps_lane_select x y _ k (by rw [hm]; by_cases h : a k = 0 <;> simp [h]), hm]
  by_cases h : a k = 0
  · simp [h, hne.symm]
  · simp [h]

theorem general_rootsCount (sqrtf : ℚ → Lane) (a b c : Fin 4 → ℚ) (k : Fin 4) :
    (solveQuadratic_general sqrtf a b c).rootsCount k =
      if a (Fin.rev k) ≠ 0 then quadraticCount (discrOf a b c (Fin.rev k))
      else linearCount (b (Fin.rev k)) := by
  rw [solveQuadratic_general_eq]
  show (maskAll a b c).countAllRoots k = _
  unfold Mask.countAllRoots
  rw [Mask.countRoots_apply, generalRoots_maskAll]

theorem general_r1 (sqrtf : ℚ → Lane) (a b c : Fin 4 → ℚ) (k : Fin 4) :
    (solveQuadratic_general sqrtf a b c).r1 k =
      if a k ≠ 0 then quadR1 sqrtf a b c k else linR1 a b c k := by
  rw [solveQuadratic_general_eq]
  exact blendv_ps_cmpneq _ _ a k

theorem general_r2 (sqrtf : ℚ → Lane) (a b c : Fin 4 → ℚ) (k : Fin 4) :
    (solveQuadratic_general sqrtf a b c).r2 k = quadR2 sqrtf a b c k := by
  rw [solveQuadratic_general_eq]

theorem quadraticCount_of_pos {d : ℚ} (h : 0 < d) : quadraticCount d = 2 := by
  unfold quadraticCount
  rw [if_neg (not_le.mpr h), if_pos h]

theorem quadraticCount_of_nonpos {d : ℚ} (h : d ≤ 0) : quadraticCount d = 0 := by
  unfold quadraticCount
  rw [if_pos h]

theorem linearCount_le_one (x : ℚ) : linearCount x ≤ 1 := by
  unfold linearCount
  split_ifs <;> decide

/-- C19. The fast paths refine the general path: for every input batch and every lane, the
`rootsCount` that `solveQuadratic` returns equals the one obtained by skipping all aggregate
tests and always running the general branch (all four predicates set, `countAllRoots`); where
that count is at least 1 the `r1` equals the blended `r1` of the general branch, and where it
is 2 the `r2` equals the `r2` of the general branch. -/
theorem fast_paths_refine_general_path (sqrtf : ℚ → Lane) (a b c : Fin 4 → ℚ) (k : Fin 4) :
    (solveQuadratic sqrtf a b c).rootsCount k
        = (solveQuadratic_general sqrtf a b c).rootsCount k ∧
    (1 ≤ (solveQuadratic sqrtf a b c).rootsCount k →
      (solveQuadratic sqrtf a b c).r1 k = (solveQuadratic_general sqrtf a b c).r1 k) ∧
    ((solveQuadratic sqrtf a b c).rootsCount k = 2 →
      (solveQuadratic sqrtf a b c).r2 k = (solveQuadratic_general sqrtf a b c).r2 k) := by
  rw [general_rootsCount, general_r1, general_r2, solveQuadratic_route]
  by_cases h1 : (∀ j, a j ≠ 0) ∧ (∀ j, 0 < discrOf a b c j)
  · rw [if_pos h1]
    refine ⟨?_, fun _ => ?_, fun _ => rfl⟩
    · rw [if_pos (h1.1 _), quadraticCount_of_pos (h1.2 _)]
      rfl
    · show quadR1 sqrtf a b c k = _
      rw [if_pos (h1.1 k)]
  · rw [if_neg h1]
    by_cases h2 : ∀ j, a j ≠ 0
    · rw [if_pos h2]
      by_cases h3 : ∀ j, discrOf a b c j ≤ 0
      · rw [if_pos h3]
        refine ⟨?_, fun h => ?_, fun h => ?_⟩
        · rw [if_pos (h2 _), quadraticCount_of_nonpos (h3 _)]
          rfl
        · exact absurd (show (1 : Int) ≤ 0 from h) (by decide)
        · exact absurd (show (0 : Int) = 2 from h) (by decide)
      · rw [if_neg h3]
        refine ⟨?_, fun _ => ?_, fun _ => rfl⟩
        · show (maskQPN a b c).countQuadraticRoots k = _
          unfold Mask.countQuadraticRoots
          rw [Mask.countRoots_apply, quadraticRoots_maskQPN, if_pos (h2 _)]
        · show quadR1 sqrtf a b c k = _
          rw [if_pos (h2 k)]
    · rw [if_neg h2]
      by_cases h3 : ∀ j, a j = 0
      · rw [if_pos h3]
        have hk : ¬ a k ≠ 0 := fun h => h (h3 k)
        have hrev : ¬ a (Fin.rev k) ≠ 0 := fun h => h (h3 _)
        by_cases h4 : ∀ j, b j ≠ 0
        · rw [if_pos h4]
          refine ⟨?_, fun _ => ?_, fun h => ?_⟩
          · rw [if_neg hrev]
            unfold linearCount
            rw [if_pos (h4 _)]
            rfl
          · show linR1 a b c k = _
            rw [if_neg hk]
          · exact absurd (show (1 : Int) = 2 from h) (by decide)
        · rw [if_neg h4]
          have hcount : (maskAll a b c).countLinearRoots k = linearCount (b (Fin.rev k)) := by
            unfold Mask.countLinearRoots
            rw [Mask.countRoots_apply, linearRoots_maskAll]
          refine ⟨?_, fun _ => ?_, fun h => ?_⟩
          · show (maskAll a b c).countLinearRoots k = _
            rw [hcount, if_neg hrev]
          · show linR1 a b c k = _
            rw [if_neg hk]
          · have h5 : (maskAll a b c).countLinearRoots k = 2 := h
            rw [hcount] at h5
            have := linearCount_le_one (b (Fin.rev k))
            rw [h5] at this
            exact absurd this (by decide)
      · rw [if_neg h3]
        refine ⟨?_, fun _ => ?_, fun _ => rfl⟩
        · show (maskAll a b c).countAllRoots k = _
          unfold Mask.countAllRoots
          rw [Mask.countRoots_apply, generalRoots_maskAll]
        · exact blendv_ps_cmpneq _ _ a k

theorem mixed_branch_r1 (sqrtf : ℚ → Lane) (a b c : Fin 4 → ℚ) (k : Fin 4)
    (h2 : ¬ ∀ j, a j ≠ 0) (h3 : ¬ ∀ j, a j = 0) :
    (solveQuadratic sqrtf a b c).r1 k =
      if a k ≠ 0 then quadR1 sqrtf a b c k else linR1 a b c k := by
  rw [solveQuadratic_route, if_neg (fun h => h2 h.1), if_neg h2, if_neg h3]
  exact blendv_ps_cmpneq _ _ a k

theorem blendv_ps_bits_lane (x y m : Fin 4 → Nat) (k : Fin 4) (hx : x k < 2 ^ 32)
    (hy : y k < 2 ^ 32) (hm : m k = allOnes 32 ∨ m k = 0) :
    blendv_ps_bits x y m k = if m k = allOnes 32 then y k else x k := by
  have hne : allOnes 32 ≠ 0 := allOnes_ne_zero 32 (by decide)
  have hand : ∀ z, z < 2 ^ 32 → z &&& allOnes 32 = z := by
    intro z hz
    unfold allOnes
    rw [Nat.and_pow_two_sub_one_eq_mod, Nat.mod_eq_of_lt hz]
  unfold blendv_ps_bits or_ps_bits andnot_ps_bits and_ps_bits
  rcases hm with h | h
  · simp only [h, if_true, Nat.xor_self, Nat.zero_and, Nat.zero_or]
    exact hand _ hy
  · simp only [h, if_neg hne.symm, Nat.and_zero, Nat.xor_zero, Nat.or_zero]
    rw [Nat.and_comm]
    exact hand _ hx

/-! ## The solver: further claims -/

/-- C11, the code at the failing input. In the batch `a = [0,1,1,1]`, `b = [1,0,0,0]`,
`c = [1,-1,-1,-1]` lane 0 holds the linear equation `x + 1 = 0`; `solveQuadratic` returns the
count 2 for lane 0 (the count of lane 3, `x^2 - 1 = 0`), and the `r2` of lane 0 is no number
(the quadratic formula divides by `a = 0`), so no `r2` solves the equation of the lane. -/
theorem two_roots_not_solutions :
    (solveQuadratic sqrtExact (lanes 0 1 1 1) (lanes 1 0 0 0)
        (lanes 1 (-1) (-1) (-1))).rootsCount 0 = 2 ∧
    (solveQuadratic sqrtExact (lanes 0 1 1 1) (lanes 1 0 0 0)
        (lanes 1 (-1) (-1) (-1))).r1 0 = some (-1) ∧
    (solveQuadratic sqrtExact (lanes 0 1 1 1) (lanes 1 0 0 0)
        (lanes 1 (-1) (-1) (-1))).r2 0 = none ∧
    ¬ ∃ y : ℚ,
      (solveQuadratic sqrtExact (lanes 0 1 1 1) (lanes 1 0 0 0)
          (lanes 1 (-1) (-1) (-1))).r2 0 = some y ∧
        (lanes 0 1 1 1 : Fin 4 → ℚ) 0 * y ^ 2 + lanes 1 0 0 0 0 * y
          + lanes 1 (-1) (-1) (-1) 0 = 0 := by
  have h2 : (solveQuadratic sqrtExact (lanes 0 1 1 1) (lanes 1 0 0 0)
      (lanes 1 (-1) (-1) (-1))).r2 0 = none := by decide!
  refine ⟨by decide!, by decide!, h2, ?_⟩
  rintro ⟨y, hy, -⟩
  rw [h2] at hy
  exact Option.noConfusion hy

/-- C12, the code at the failing input. In the batch `a = [0,0,0,0]`, `b = [0,1,1,1]`,
`c = [1,1,1,1]` lane 0 holds `0*x + 1 = 0`, which has no solution; `solveQuadratic` returns
the count 1 for lane 0 (the count of lane 3) and the `r1` of lane 0 is `1 / 0`, no number, so
no `r1` solves the equation of the lane. -/
theorem single_root_not_solution :
    (solveQuadratic sqrtExact (lanes 0 0 0 0) (lanes 0 1 1 1) (lanes 1 1 1 1)).rootsCount 0
      = 1 ∧
    (solveQuadratic sqrtExact (lanes 0 0 0 0) (lanes 0 1 1 1) (lanes 1 1 1 1)).r1 0 = none ∧
    ¬ ∃ x : ℚ,
      (solveQuadratic sqrtExact (lanes 0 0 0 0) (lanes 0 1 1 1) (lanes 1 1 1 1)).r1 0
          = some x ∧
        (lanes 0 0 0 0 : Fin 4 → ℚ) 0 * x ^ 2 + lanes 0 1 1 1 0 * x + lanes 1 1 1 1 0 = 0 := by
  have h1 : (solveQuadratic sqrtExact (lanes 0 0 0 0) (lanes 0 1 1 1)
      (lanes 1 1 1 1)).r1 0 = none := by decide!
  refine ⟨by decide!, h1, ?_⟩
  rintro ⟨x, hx, -⟩
  rw [h1] at hx
  exact Option.noConfusion hx

/-- C13, the code at the failing input. In the all-linear batch `a = [0,0,0,0]`,
`b = [0,0,0,2]`, `c = [5,5,5,-3]` the lanes with `b = 0` are lanes 0, 1 and 2, so the claim
asks for the counts `[0,0,0,1]`, which are also the counts of `solveQuadratic_scalar`;
`solveQuadratic` returns `[1,0,0,0]`. -/
theorem all_linear_counts_reversed :
    (∀ k : Fin 4, (lanes 0 0 0 0 : Fin 4 → ℚ) k = 0) ∧
    (List.finRange 4).map (fun k => decide ((lanes 0 0 0 2 : Fin 4 → ℚ) k = 0))
      = [true, true, true, false] ∧
    (List.finRange 4).map
        (solveQuadratic sqrtExact (lanes 0 0 0 0) (lanes 0 0 0 2) (lanes 5 5 5 (-3))).rootsCount
      = [1, 0, 0, 0] ∧
    (List.finRange 4).map
        (fun k => (solveQuadratic_scalar sqrtExact ((lanes 0 0 0 0 : Fin 4 → ℚ) k)
          ((lanes 0 0 0 2 : Fin 4 → ℚ) k) ((lanes 5 5 5 (-3) : Fin 4 → ℚ) k)).1)
      = [0, 0, 0, 1] := by
  decide!

/-- C14, the code at the input of the scenario. For `a = [1,1,0,1]`, `b = [0,5,2,-4]`,
`c = [-4,6,-3,4]` `solveQuadratic` returns the counts `[0,1,2,2]`, not `[2,2,1,1]`; the roots
are where the scenario puts them: `-2` and `2` in lane 0, `1.5` in `r1` of lane 2 and `2` in
`r1` of lane 3. The counts of `solveQuadratic_scalar` on the four lanes are `[2,2,1,1]`. -/
theorem mixed_scenario_counts :
    (List.finRange 4).map
        (solveQuadratic sqrtExact (lanes 1 1 0 1) (lanes 0 5 2 (-4))
          (lanes (-4) 6 (-3) 4)).rootsCount = [0, 1, 2, 2] ∧
    (solveQuadratic sqrtExact (lanes 1 1 0 1) (lanes 0 5 2 (-4)) (lanes (-4) 6 (-3) 4)).r1 0
      = some (-2) ∧
    (solveQuadratic sqrtExact (lanes 1 1 0 1) (lanes 0 5 2 (-4)) (lanes (-4) 6 (-3) 4)).r2 0
      = some 2 ∧
    (solveQuadratic sqrtExact (lanes 1 1 0 1) (lanes 0 5 2 (-4)) (lanes (-4) 6 (-3) 4)).r1 2
      = some (3 / 2) ∧
    (solveQuadratic sqrtExact (lanes 1 1 0 1) (lanes 0 5 2 (-4)) (lanes (-4) 6 (-3) 4)).r1 3
      = some 2 ∧
    (List.finRange 4).map
        (fun k => (solveQuadratic_scalar sqrtExact ((lanes 1 1 0 1 : Fin 4 → ℚ) k)
          ((lanes 0 5 2 (-4) : Fin 4 → ℚ) k) ((lanes (-4) 6 (-3) 4 : Fin 4 → ℚ) k)).1)
      = [2, 2, 1, 1] := by
  decide!

/-- C15. Degenerate scenario: for `a = [0,0,0,0]`, `b = [0,0,0,0]`, `c = [1,-1,0,2]`
`solveQuadratic` takes the all-linear branch (`False<Quadratic>()` is true, after the two
tests of `True<Quadratic>()` failed) with `False<ZeroB>()` false, so it returns `c / b` in `r1`
and `countLinearRoots()`, and the count is 0 in every lane, the lane with `c = 0` included;
this holds whatever the square root. -/
theorem degenerate_scenario (sqrtf : ℚ → Lane) :
    ((maskQP (lanes 0 0 0 0) (lanes 0 0 0 0) (lanes 1 (-1) 0 2)).True .Quadratic = false ∧
      (maskQPN (lanes 0 0 0 0) (lanes 0 0 0 0) (lanes 1 (-1) 0 2)).True .Quadratic = false ∧
      (maskAll (lanes 0 0 0 0) (lanes 0 0 0 0) (lanes 1 (-1) 0 2)).False .Quadratic = true ∧
      (maskAll (lanes 0 0 0 0) (lanes 0 0 0 0) (lanes 1 (-1) 0 2)).False .ZeroB = false) ∧
    solveQuadratic sqrtf (lanes 0 0 0 0) (lanes 0 0 0 0) (lanes 1 (-1) 0 2) =
      { rootsCount :=
          (maskAll (lanes 0 0 0 0) (lanes 0 0 0 0) (lanes 1 (-1) 0 2)).countLinearRoots,
        r1 := linR1 (lanes 0 0 0 0) (lanes 0 0 0 0) (lanes 1 (-1) 0 2),
        r2 := fun _ => none } ∧
    (List.finRange 4).map
        (solveQuadratic sqrtf (lanes 0 0 0 0) (lanes 0 0 0 0) (lanes 1 (-1) 0 2)).rootsCount
      = [0, 0, 0, 0] := by
  have hflags :
      (maskQP (lanes 0 0 0 0) (lanes 0 0 0 0) (lanes 1 (-1) 0 2)).True .Quadratic = false ∧
      (maskQPN (lanes 0 0 0 0) (lanes 0 0 0 0) (lanes 1 (-1) 0 2)).True .Quadratic = false ∧
      (maskAll (lanes 0 0 0 0) (lanes 0 0 0 0) (lanes 1 (-1) 0 2)).False .Quadratic = true ∧
      (maskAll (lanes 0 0 0 0) (lanes 0 0 0 0) (lanes 1 (-1) 0 2)).False .ZeroB = false := by
    decide!
  obtain ⟨f1, f2, f3, f4⟩ := hflags
  have hsol : solveQuadratic sqrtf (lanes 0 0 0 0) (lanes 0 0 0 0) (lanes 1 (-1) 0 2) =
      { rootsCount :=
          (maskAll (lanes 0 0 0 0) (lanes 0 0 0 0) (lanes 1 (-1) 0 2)).countLinearRoots,
        r1 := linR1 (lanes 0 0 0 0) (lanes 0 0 0 0) (lanes 1 (-1) 0 2),
        r2 := fun _ => none } := by
    rw [solveQuadratic_eq, f1, f2, f3, f4]
    rfl
  refine ⟨⟨f1, f2, f3, f4⟩, hsol, ?_⟩
  rw [hsol]
  decide!

/-- C16, the code at the failing input. The batches `a = [1,1,1,1]`, `b = [0,0,0,0]`,
`c = [-1,-1,-1,-1]` and `a = [1,1,1,1]`, `b = [0,0,0,0]`, `c = [-1,-1,-1,1]` agree in lane 0
(`x^2 - 1 = 0`) and differ only in lane 3; `solveQuadratic` returns the count 2 for lane 0 in
the first run and the count 0 for lane 0 in the second. -/
theorem lane_isolation_fails :
    ((lanes 1 1 1 1 : Fin 4 → ℚ) 0 = lanes 1 1 1 1 0 ∧
      (lanes 0 0 0 0 : Fin 4 → ℚ) 0 = lanes 0 0 0 0 0 ∧
      (lanes (-1) (-1) (-1) (-1) : Fin 4 → ℚ) 0 = lanes (-1) (-1) (-1) 1 0) ∧
    (solveQuadratic sqrtExact (lanes 1 1 1 1) (lanes 0 0 0 0)
        (lanes (-1) (-1) (-1) (-1))).rootsCount 0 = 2 ∧
    (solveQuadratic sqrtExact (lanes 1 1 1 1) (lanes 0 0 0 0)
        (lanes (-1) (-1) (-1) 1)).rootsCount 0 = 0 := by
  decide!

/-- C17, the code at the failing input. For every mask, lane `k` of `countQuadraticRoots()`,
`countLinearRoots()` and `countAllRoots()` holds the result of the classifier for lane
`3 - k`, not for lane `k`: `countRoots` passes `fn( 0 )` as the first argument of `set_epi32`,
which is lane 3. For the mask `0x8011` (`Quadratic` and `DiscrPositive` in lane 0, `ZeroB` in
lane 3) lane 0 of the three vectors holds 1, 0 and 0, while the classifiers give 2, 1 and 2
for lane 0. -/
theorem counts_land_in_mirrored_lane :
    (∀ (m : Mask) (k : Fin 4),
      m.countQuadraticRoots k = m.quadraticRoots (3 - k.val) ∧
      m.countLinearRoots k = m.linearRoots (3 - k.val) ∧
      m.countAllRoots k = m.generalRoots (3 - k.val)) ∧
    (Mask.countQuadraticRoots { m_mask := 0x8011 } 0 = 1 ∧
      Mask.quadraticRoots { m_mask := 0x8011 } 0 = 2) ∧
    (Mask.countLinearRoots { m_mask := 0x8011 } 0 = 0 ∧
      Mask.linearRoots { m_mask := 0x8011 } 0 = 1) ∧
    (Mask.countAllRoots { m_mask := 0x8011 } 0 = 0 ∧
      Mask.generalRoots { m_mask := 0x8011 } 0 = 2) := by
  refine ⟨?_, by decide, by decide, by decide⟩
  intro m k
  have hrev : (Fin.rev k).val = 3 - k.val := by
    fin_cases k <;> rfl
  unfold Mask.countQuadraticRoots Mask.countLinearRoots Mask.countAllRoots
  rw [Mask.countRoots_apply, Mask.countRoots_apply, Mask.countRoots_apply, hrev]
  exact ⟨rfl, rfl, rfl⟩

/-- C20. The function `blendv_ps` selects per lane: for registers of 32-bit lanes and a mask
whose lanes are each all-zero or all-ones, every lane of `blendv_ps( a, b, maskPickB )` is
bit for bit the lane of `b` where the mask lane is all-ones and the lane of `a` where it is
zero; on numbers the same selection holds; hence in the general branch of `solveQuadratic`
(a batch with some lane `a = 0` and some lane `a ≠ 0`) the lanes with `a ≠ 0` keep the `r1` of
the quadratic formula and the other lanes get `c / b`. -/
theorem blendv_ps_selects (x y m : Fin 4 → Nat) (u v : Fin 4 → Lane) (sqrtf : ℚ → Lane)
    (a b c : Fin 4 → ℚ) (hx : ∀ j, x j < 2 ^ 32) (hy : ∀ j, y j < 2 ^ 32)
    (hm : ∀ j, m j = allOnes 32 ∨ m j = 0)
    (hsome : ¬ ∀ j, a j ≠ 0) (hnotall : ¬ ∀ j, a j = 0) :
    (∀ k, blendv_ps_bits x y m k = if m k = allOnes 32 then y k else x k) ∧
    (∀ k, blendv_ps u v m k = if m k = allOnes 32 then v k else u k) ∧
    (∀ k, (solveQuadratic sqrtf a b c).r1 k =
      if a k ≠ 0 then quadR1 sqrtf a b c k else linR1 a b c k) :=
  ⟨fun k => blendv_ps_bits_lane x y m k (hx k) (hy k) (hm k),
   fun k => blendv_ps_lane_select u v m k (hm k),
   fun k => mixed_branch_r1 sqrtf a b c k hsome hnotall⟩

theorem blendv_ps_selects_witness :
    ((∀ j : Fin 4, lanes 1 2 3 4 j < 2 ^ 32) ∧ (∀ j : Fin 4, lanes 5 6 7 8 j < 2 ^ 32) ∧
      (∀ j : Fin 4, lanes 0 (allOnes 32) 0 (allOnes 32) j = allOnes 32 ∨
        lanes 0 (allOnes 32) 0 (allOnes 32) j = 0) ∧
      (¬ ∀ j : Fin 4, (lanes 1 1 0 1 : Fin 4 → ℚ) j ≠ 0) ∧
      (¬ ∀ j : Fin 4, (lanes 1 1 0 1 : Fin 4 → ℚ) j = 0)) ∧
    ((∀ k, blendv_ps_bits (lanes 1 2 3 4) (lanes 5 6 7 8) (lanes 0 (allOnes 32) 0 (allOnes 32)) k
        = if lanes 0 (allOnes 32) 0 (allOnes 32) k = allOnes 32 then lanes 5 6 7 8 k
          else lanes 1 2 3 4 k) ∧
     (∀ k, blendv_ps (lanes (some 1) none (some 3) (some 4)) (lanes (some 5) (some 6) none none)
          (lanes 0 (allOnes 32) 0 (allOnes 32)) k
        = if lanes 0 (allOnes 32) 0 (allOnes 32) k = allOnes 32
          then (lanes (some 5) (some 6) none none : Fin 4 → Lane) k
          else (lanes (some 1) none (some 3) (some 4) : Fin 4 → Lane) k) ∧
     (∀ k, (solveQuadratic sqrtExact (lanes 1 1 0 1) (lanes 0 5 2 (-4))
          (lanes (-4) 6 (-3) 4)).r1 k =
        if (lanes 1 1 0 1 : Fin 4 → ℚ) k ≠ 0
        then quadR1 sqrtExact (lanes 1 1 0 1) (lanes 0 5 2 (-4)) (lanes (-4) 6 (-3) 4) k
        else linR1 (lanes 1 1 0 1) (lanes 0 5 2 (-4)) (lanes (-4) 6 (-3) 4) k)) :=
  ⟨by decide!,
   blendv_ps_selects (lanes 1 2 3 4) (lanes 5 6 7 8) (lanes 0 (allOnes 32) 0 (allOnes 32))
     (lanes (some 1) none (some 3) (some 4)) (lanes (some 5) (some 6) none none) sqrtExact
     (lanes 1 1 0 1) (lanes 0 5 2 (-4)) (lanes (-4) 6 (-3) 4)
     (by decide) (by decide) (by decide) (by decide!) (by decide!)⟩

/-! ## The canonicalization on the sign bits -/

theorem solveQuadratic_eq_solveCanonical (sqrtf : ℚ → Lane) (a b c : Fin 4 → ℚ) :
    solveQuadratic sqrtf a b c =
      solveCanonical sqrtf (canonA a) (canonB a b) (canonC a c) :=
  rfl

namespace StoredFloat

theorem toRat_flipSign (y : StoredFloat) : y.flipSign.toRat = - y.toRat := by
  cases y with
  | num x =>
    unfold flipSign
    by_cases h : x = 0
    · simp [h, toRat]
    · simp [h, toRat]
  | negZero => simp [flipSign, toRat]

theorem flipSign_flipSign (y : StoredFloat) : y.flipSign.flipSign = y := by
  cases y with
  | num x =>
    unfold flipSign
    by_cases h : x = 0
    · simp [h, flipSign]
    · simp [h, flipSign]
  | negZero => simp [flipSign]

theorem toRat_num (x : ℚ) : (num x).toRat = x := rfl

theorem toRat_negZero : negZero.toRat = 0 := rfl

theorem signBit_num (x : ℚ) : (num x).signBit = decide (x < 0) := rfl

theorem signBit_negZero : negZero.signBit = true := rfl

theorem signBit_flipSign (y : StoredFloat) : y.flipSign.signBit = !y.signBit := by
  cases y with
  | num x =>
    by_cases h : x = 0
    · simp [h, flipSign, signBit]
    · simp only [flipSign, if_neg h, signBit]
      by_cases hx : x < 0
      · have h3 : ¬ (-x < 0) := by linarith
        simp [hx, h3]
      · have h3 : -x < 0 := by
          have := lt_of_le_of_ne (not_lt.mp hx) (Ne.symm h)
          linarith
        simp [hx, h3]
  | negZero => simp [flipSign, signBit]

theorem toRat_nonneg_of_signBit_false (y : StoredFloat) (h : y.signBit = false) :
    0 ≤ y.toRat := by
  cases y with
  | num x =>
    simp only [signBit, decide_eq_false_iff_not, not_lt] at h
    exact h
  | negZero => simp [signBit] at h

theorem toRat_nonpos_of_signBit (y : StoredFloat) (h : y.signBit = true) :
    y.toRat ≤ 0 := by
  cases y with
  | num x =>
    simp only [signBit, decide_eq_true_eq] at h
    exact le_of_lt h
  | negZero => simp [toRat]

end StoredFloat

theorem Lane.mul_none (x : Lane) : Lane.mul x none = none := by
  cases x <;> rfl

theorem solveCanonical_congr (sqrtf : ℚ → Lane) (a b1 c1 b2 c2 : Fin 4 → ℚ)
    (h : ∀ k, (b1 k = b2 k ∧ c1 k = c2 k) ∨ (a k = 0 ∧ b1 k = - b2 k ∧ c1 k = - c2 k)) :
    solveCanonical sqrtf a b1 c1 = solveCanonical sqrtf a b2 c2 := by
  have hd : (fun k => b1 k * b1 k + (-4) * a k * c1 k)
      = (fun k => b2 k * b2 k + (-4) * a k * c2 k) := by
    funext k
    rcases h k with ⟨hb, hc⟩ | ⟨ha, hb, hc⟩
    · rw [hb, hc]
    · rw [ha, hb]
      ring
  have hz : cmpeq_ps b1 setzero_ps = cmpeq_ps b2 setzero_ps := by
    funext k
    unfold cmpeq_ps setzero_ps
    rcases h k with ⟨hb, _⟩ | ⟨_, hb, _⟩
    · rw [hb]
    · rw [hb]
      simp only [neg_eq_zero]
  have hq : ∀ d, Solution.quadraticFormula sqrtf a b1 d Solution.uninit
      = Solution.quadraticFormula sqrtf a b2 d Solution.uninit := by
    intro d
    have hlane : ∀ k (f : Lane → Lane → Lane),
        Lane.mul (f (some (b1 k)) (sqrtf (d k))) (Lane.div (some (1 / 2)) (some (a k)))
          = Lane.mul (f (some (b2 k)) (sqrtf (d k))) (Lane.div (some (1 / 2)) (some (a k))) := by
      intro k f
      rcases h k with ⟨hb, _⟩ | ⟨ha, _, _⟩
      · rw [hb]
      · have : Lane.div (some (1 / 2)) (some (a k)) = none := by
          rw [ha]
          simp [Lane.div]
        rw [this, Lane.mul_none, Lane.mul_none]
    unfold Solution.quadraticFormula
    have h1 : (fun k => Lane.mul (Lane.sub (some (b1 k)) (sqrtf (d k)))
          (Lane.div (some (1 / 2)) (some (a k))))
        = (fun k => Lane.mul (Lane.sub (some (b2 k)) (sqrtf (d k)))
          (Lane.div (some (1 / 2)) (some (a k)))) :=
      funext fun k => hlane k Lane.sub
    have h2 : (fun k => Lane.mul (Lane.add (some (b1 k)) (sqrtf (d k)))
          (Lane.div (some (1 / 2)) (some (a k))))
        = (fun k => Lane.mul (Lane.add (some (b2 k)) (sqrtf (d k)))
          (Lane.div (some (1 / 2)) (some (a k)))) :=
      funext fun k => hlane k Lane.add
    simp only [h1, h2]
  have hl : (fun k => Lane.div (some (c1 k)) (some (b1 k)))
      = (fun k => Lane.div (some (c2 k)) (some (b2 k))) := by
    funext k
    rcases h k with ⟨hb, hc⟩ | ⟨_, hb, hc⟩
    · rw [hb, hc]
    · rw [hb, hc]
      unfold Lane.div
      simp only [Option.some_bind, neg_eq_zero, neg_div_neg_eq]
  unfold solveCanonical
  simp only [hd, hz, hq, hl]

theorem values_canonicalize_a (a b c : Fin 4 → StoredFloat) :
    values (canonicalize a b c).1 = canonA (values a) := by
  funext k
  show (if (a k).signBit then (a k).flipSign else a k).toRat = canonA (values a) k
  rw [canonA_eq]
  show _ = |(a k).toRat|
  cases hs : (a k).signBit
  · simp only [Bool.false_eq_true, if_false]
    exact (abs_of_nonneg (StoredFloat.toRat_nonneg_of_signBit_false _ hs)).symm
  · simp only [if_true]
    rw [StoredFloat.toRat_flipSign]
    exact (abs_of_nonpos (StoredFloat.toRat_nonpos_of_signBit _ hs)).symm

theorem values_canonicalize_bc (a b c : Fin 4 → StoredFloat) (k : Fin 4) :
    (values (canonicalize a b c).2.1 k = canonB (values a) (values b) k ∧
      values (canonicalize a b c).2.2 k = canonC (values a) (values c) k) ∨
    (canonA (values a) k = 0 ∧
      values (canonicalize a b c).2.1 k = - canonB (values a) (values b) k ∧
      values (canonicalize a b c).2.2 k = - canonC (values a) (values c) k) := by
  show ((if (a k).signBit then (b k).flipSign else b k).flipSign.toRat = _ ∧
      (if (a k).signBit then (c k).flipSign else c k).toRat = _) ∨
    (_ ∧ (if (a k).signBit then (b k).flipSign else b k).flipSign.toRat = _ ∧
      (if (a k).signBit then (c k).flipSign else c k).toRat = _)
  unfold canonA canonB canonC xorSign signOf values
  cases ha : a k with
  | num x =>
    left
    by_cases hx : x < 0
    · simp [StoredFloat.signBit_num, StoredFloat.toRat_num, hx, StoredFloat.toRat_flipSign]
    · simp [StoredFloat.signBit_num, StoredFloat.toRat_num, hx, StoredFloat.toRat_flipSign]
  | negZero =>
    right
    simp [StoredFloat.signBit_negZero, StoredFloat.toRat_negZero, StoredFloat.toRat_flipSign]

theorem solveQuadratic_signbit_eq (sqrtf : ℚ → Lane) (a b c : Fin 4 → StoredFloat) :
    solveQuadratic_signbit sqrtf a b c
      = solveQuadratic sqrtf (values a) (values b) (values c) := by
  rw [solveQuadratic_eq_solveCanonical]
  show solveCanonical sqrtf (values (canonicalize a b c).1) (values (canonicalize a b c).2.1)
    (values (canonicalize a b c).2.2) = _
  rw [values_canonicalize_a]
  exact solveCanonical_congr sqrtf _ _ _ _ _ (values_canonicalize_bc a b c)

theorem canonicalize_sign_cases (a b c : Fin 4 → StoredFloat) (k : Fin 4) :
    ((canonicalize a b c).1 k, ((canonicalize a b c).2.1 k).flipSign,
        (canonicalize a b c).2.2 k)
      = (if (a k).signBit then ((a k).flipSign, (b k).flipSign, (c k).flipSign)
          else (a k, b k, c k)) := by
  show ((if (a k).signBit then (a k).flipSign else a k),
      ((if (a k).signBit then (b k).flipSign else b k).flipSign).flipSign,
      (if (a k).signBit then (c k).flipSign else c k)) = _
  rw [StoredFloat.flipSign_flipSign]
  cases (a k).signBit <;> rfl

theorem canonicalize_a_signBit (a b c : Fin 4 → StoredFloat) (k : Fin 4) :
    ((canonicalize a b c).1 k).signBit = false := by
  show (if (a k).signBit then (a k).flipSign else a k).signBit = false
  cases hs : (a k).signBit
  · simp only [Bool.false_eq_true, if_false]
    exact hs
  · simp only [if_true]
    rw [StoredFloat.signBit_flipSign, hs]
    rfl

theorem canonicalize_same_solutions (a b c : Fin 4 → StoredFloat) (k : Fin 4) (x : ℝ) :
    (((canonicalize a b c).1 k).toRat : ℝ) * x ^ 2
        - (((canonicalize a b c).2.1 k).toRat : ℝ) * x
        + (((canonicalize a b c).2.2 k).toRat : ℝ) = 0 ↔
      ((a k).toRat : ℝ) * x ^ 2 + ((b k).toRat : ℝ) * x + ((c k).toRat : ℝ) = 0 := by
  show (((if (a k).signBit then (a k).flipSign else a k).toRat : ℚ) : ℝ) * x ^ 2
      - (((if (a k).signBit then (b k).flipSign else b k).flipSign.toRat : ℚ) : ℝ) * x
      + (((if (a k).signBit then (c k).flipSign else c k).toRat : ℚ) : ℝ) = 0 ↔ _
  cases (a k).signBit
  · simp only [Bool.false_eq_true, if_false, StoredFloat.toRat_flipSign]
    push_cast
    constructor <;> intro hx <;> linarith
  · simp only [if_true, StoredFloat.toRat_flipSign, neg_neg]
    push_cast
    constructor <;> intro hx <;> linarith

/-- C18, the claim as stated fails. In a lane with `a = -0.0`, `b = 1`, `c = 1` the
coefficient `a` is not negative (`a >= 0`), yet its sign bit is set, so the code flips `b`
and `c`: the working coefficients give `(a', -b', c') = (0, -1, -1)`, which is `(-a, -b, -c)`
and not `(a, b, c) = (0, 1, 1)`. -/
theorem canonicalization_negative_zero :
    0 ≤ (lanes StoredFloat.negZero (.num 2) (.num 2) (.num 2) 0).toRat ∧
    ¬ (lanes StoredFloat.negZero (.num 2) (.num 2) (.num 2) 0).toRat < 0 ∧
    ((values (canonicalize (lanes .negZero (.num 2) (.num 2) (.num 2))
          (lanes (.num 1) (.num 3) (.num 3) (.num 3))
          (lanes (.num 1) (.num 4) (.num 4) (.num 4))).1 0,
        - values (canonicalize (lanes .negZero (.num 2) (.num 2) (.num 2))
          (lanes (.num 1) (.num 3) (.num 3) (.num 3))
          (lanes (.num 1) (.num 4) (.num 4) (.num 4))).2.1 0,
        values (canonicalize (lanes .negZero (.num 2) (.num 2) (.num 2))
          (lanes (.num 1) (.num 3) (.num 3) (.num 3))
          (lanes (.num 1) (.num 4) (.num 4) (.num 4))).2.2 0)
      = (0, -1, -1)) ∧
    (values (lanes .negZero (.num 2) (.num 2) (.num 2)) 0,
        values (lanes (.num 1) (.num 3) (.num 3) (.num 3)) 0,
        values (lanes (.num 1) (.num 4) (.num 4) (.num 4)) 0)
      = (0, 1, 1) ∧
    ((canonicalize (lanes .negZero (.num 2) (.num 2) (.num 2))
          (lanes (.num 1) (.num 3) (.num 3) (.num 3))
          (lanes (.num 1) (.num 4) (.num 4) (.num 4))).1 0,
        ((canonicalize (lanes .negZero (.num 2) (.num 2) (.num 2))
          (lanes (.num 1) (.num 3) (.num 3) (.num 3))
          (lanes (.num 1) (.num 4) (.num 4) (.num 4))).2.1 0).flipSign,
        (canonicalize (lanes .negZero (.num 2) (.num 2) (.num 2))
          (lanes (.num 1) (.num 3) (.num 3) (.num 3))
          (lanes (.num 1) (.num 4) (.num 4) (.num 4))).2.2 0)
      ≠ (lanes StoredFloat.negZero (.num 2) (.num 2) (.num 2) 0,
          lanes (StoredFloat.num 1) (.num 3) (.num 3) (.num 3) 0,
          lanes (StoredFloat.num 1) (.num 4) (.num 4) (.num 4) 0) := by
  decide!

/-- C18, amended. For every lane of stored floats, the working coefficients `(a', b', c')`
after the sign flip and the negation of `b` at the start of `solveQuadratic` satisfy
`a' = |a| >= 0` with the sign bit of `a'` clear; `(a', -b', c')` is `(a, b, c)` when the sign
bit of `a` is clear and `(-a, -b, -c)` when it is set (`a < 0` or `a = -0.0`), the negation
being the flip of the sign bit; and `a'*x^2 - b'*x + c' = 0` has the same real solutions `x`
as `a*x^2 + b*x + c = 0`. The function run on these working coefficients returns what
`solveQuadratic` returns on the numbers the inputs hold. -/
theorem canonicalization_by_sign_bit (sqrtf : ℚ → Lane) (a b c : Fin 4 → StoredFloat)
    (k : Fin 4) :
    (((canonicalize a b c).1 k).toRat = |(a k).toRat| ∧
      0 ≤ ((canonicalize a b c).1 k).toRat ∧
      ((canonicalize a b c).1 k).signBit = false) ∧
    ((canonicalize a b c).1 k, ((canonicalize a b c).2.1 k).flipSign,
        (canonicalize a b c).2.2 k)
      = (if (a k).signBit then ((a k).flipSign, (b k).flipSign, (c k).flipSign)
          else (a k, b k, c k)) ∧
    (∀ x : ℝ,
      (((canonicalize a b c).1 k).toRat : ℝ) * x ^ 2
          - (((canonicalize a b c).2.1 k).toRat : ℝ) * x
          + (((canonicalize a b c).2.2 k).toRat : ℝ) = 0 ↔
        ((a k).toRat : ℝ) * x ^ 2 + ((b k).toRat : ℝ) * x + ((c k).toRat : ℝ) = 0) ∧
    solveCanonical sqrtf (values (canonicalize a b c).1) (values (canonicalize a b c).2.1)
        (values (canonicalize a b c).2.2)
      = solveQuadratic sqrtf (values a) (values b) (values c) := by
  have hval : ((canonicalize a b c).1 k).toRat = |(a k).toRat| := by
    have := congrFun (values_canonicalize_a a b c) k
    rw [canonA_eq] at this
    exact this
  refine ⟨⟨hval, ?_, canonicalize_a_signBit a b c k⟩, canonicalize_sign_cases a b c k,
    fun x => canonicalize_same_solutions a b c k x, solveQuadratic_signbit_eq sqrtf a b c⟩
  rw [hval]
  exact abs_nonneg _
